import Mathlib

/-!
Verification development for the joy compiler (parser, semantic analyzer /
monomorphizer, C emitter driver).

The semantic analyzer of src/passes.cpp is embedded as a family of mutually
recursive state-passing functions.  Heap nodes with pointer identity (types,
function instantiations) are represented by their numeric ids together with
side tables from ids to node data; pointer equality in the source is id
equality here.  Diagnostics are modeled as tagged values without the rendered
type names and without source locations, since no theorem below depends on
either.  Recursion through the instantiation memos is not structurally
bounded in the source (it is bounded only by memo growth, and in fact need
not terminate), so every analyzer function takes a fuel argument; the outer
none result means fuel ran out, while results of the source functions
(including null pointers) live inside the some.
-/

set_option autoImplicit false

namespace Joy

/-- Binary operators, from enum class BinaryOperation in src/ast.hpp. -/
inductive BinaryOperation
  | add | sub | mul | div | rem | eq | ne | lt | le | gt | ge
deriving DecidableEq, Repr

/-- Syntactic expressions produced by the parser, from src/ast.hpp
(IntLiteral, Name, BinaryExpression, Assignment, Call, MemberAccess). -/
inductive SExpr
  | intLit (value : Int)
  | name (s : String)
  | binary (op : BinaryOperation) (left right : SExpr)
  | assign (left right : SExpr)
  | call (callee : SExpr) (args : List SExpr)
  | member (receiver : SExpr) (memberName : String)

/-- Syntactic statements, from src/ast.hpp.  The parser always supplies the
else arm of an if statement (an EmptyStatement when absent), so it is not
optional here. -/
inductive SStmt
  | blockS (stmts : List SStmt)
  | emptyS
  | letS (name : String) (declType : Option SExpr) (init : SExpr)
  | ifS (cond : SExpr) (thenS elseS : SStmt)
  | whileS (cond : SExpr) (body : SStmt)
  | returnS (e : Option SExpr)
  | exprS (e : SExpr)

/-- A syntactic function declaration, from class Function in src/ast.hpp.
The parser substitutes Name "Void" when the return type is absent. -/
structure SFunction where
  name : String
  template_arguments : List String
  arguments : List (String × SExpr)
  return_type : SExpr
  block : List SStmt

/-- A syntactic structure declaration, from class Structure in src/ast.hpp. -/
structure SStructure where
  name : String
  template_arguments : List String
  members : List (String × SExpr)

/-- The syntactic program, from class Program in src/ast.hpp (the parser-built
part: top-level functions and structures). -/
structure SProgram where
  functions : List SFunction
  structures : List SStructure

/-- Semantic IR expressions: the same node vocabulary with the resolved type
field (nullable Type pointer, here an optional type id).  A Call node stores
the resolved function id and its argument vector, whose entries are nullable
in the source. -/
inductive IExpr
  | intLit (value : Int) (ty : Option Nat)
  | name (s : String) (ty : Option Nat)
  | binary (op : BinaryOperation) (left right : IExpr) (ty : Option Nat)
  | assign (left right : IExpr) (ty : Option Nat)
  | call (functionId : Nat) (args : List (Option IExpr)) (ty : Option Nat)
  | member (receiver : IExpr) (memberName : String) (ty : Option Nat)

/-- The type field of an IR expression (Expression::get_type). -/
def IExpr.tyOf : IExpr → Option Nat
  | .intLit _ t => t
  | .name _ t => t
  | .binary _ _ _ t => t
  | .assign _ _ t => t
  | .call _ _ t => t
  | .member _ _ t => t

/-- Semantic IR statements.  The type slot of a let statement holds the id
wrapped by the source in a bare Expression(type) node; it is non-null there
because the statement is only built when no error was flagged. -/
inductive IStmt
  | blockS (stmts : List IStmt)
  | emptyS
  | letS (name : String) (ty : Nat) (init : IExpr)
  | ifS (cond : IExpr) (thenS elseS : IStmt)
  | whileS (cond : IExpr) (body : IStmt)
  | returnS (e : Option IExpr)
  | exprS (e : IExpr)

/-- Data of a created Type node: VoidType, IntType or StructureInstantiation
(parent structure by index into the program structure list, plus the concrete
template arguments).  Members are kept in a separate table because the source
fills them in after the node is memoized. -/
inductive TypeNode
  | voidT
  | intT
  | structT (structIdx : Nat) (templateArgs : List Nat)
deriving DecidableEq, Repr

/-- Diagnostics recorded by Pass1, by message shape (rendered type names and
source locations are not modeled). -/
inductive Err
  | structNotFound (name : String)
  | multipleStructs (count : Nat) (name : String)
  | badTemplateArity (name : String)
  | noMatchingFunction (name : String)
  | multipleMatchingFunctions (count : Nat) (name : String)
  | expectedName
  | undefinedVariable (name : String)
  | invalidBinary
  | typeMismatch
  | expectedStructType
  | noSuchField (name : String)
deriving DecidableEq, Repr

/-- Data of a FunctionInstantiation visible through the memo: parent function
index, concrete template arguments, argument names with their (nullable)
types, and the (nullable) return type.  The body is kept in a separate table
because the source sets it after the memo insertion. -/
structure FnEntry where
  fnIdx : Nat
  templateArgs : List Nat
  args : List (String × Option Nat)
  returnType : Option Nat
deriving DecidableEq, Repr

/-- The mutable analyzer state: the id counter and the semantic side of the
Program (type list, function instantiation list, main id) together with the
two instantiation memos, the lazily created builtin singletons and the
diagnostic sink.  Lists of created nodes are addressed by id. -/
structure St where
  nextId : Nat := 0
  voidType : Option Nat := none
  intType : Option Nat := none
  types : List Nat := []
  typeTable : List (Nat × TypeNode) := []
  memberTable : List (Nat × List (String × Option Nat)) := []
  fnInsts : List Nat := []
  fnTable : List (Nat × FnEntry) := []
  fnBlocks : List (Nat × List IStmt) := []
  smemo : List ((Nat × List Nat) × Nat) := []
  fmemo : List ((Nat × List Nat) × Nat) := []
  errs : List Err := []
  mainId : Nat := 0

/-- The initial analyzer state. -/
def St0 : St := {}

/-- First-match association list lookup. -/
def alookup {α β : Type} [DecidableEq α] : List (α × β) → α → Option β
  | [], _ => none
  | (k, v) :: r, a => if k = a then some v else alookup r a

/-- Insert a binding only when the key is absent (std::map emplace shape;
every insertion in the source happens after a failed lookup or with a fresh
id, so this matches the source behavior on all reachable states). -/
def ainsert {α β : Type} [DecidableEq α] (k : α) (v : β) (l : List (α × β)) : List (α × β) :=
  match alookup l k with
  | some _ => l
  | none => (k, v) :: l

/-- One ScopeMap frame: bindings from names to type ids.  Null values are
never stored (ScopeMap::insert skips them). -/
abbrev Frame := List (String × Nat)

/-- A chain of ScopeMap frames, innermost first. -/
abbrev Scope := List Frame

/-- ScopeMap::insert from src/passes.cpp: a null value is skipped and an
existing binding is kept (std::map::emplace does not overwrite). -/
def frame_insert (name : String) (value : Option Nat) (f : Frame) : Frame :=
  match value with
  | none => f
  | some t =>
    match alookup f name with
    | some _ => f
    | none => (name, t) :: f

/-- Insert into the innermost scope frame (the current ScopeMap). -/
def scope_insert (name : String) (value : Option Nat) : Scope → Scope
  | [] => []
  | f :: r => frame_insert name value f :: r

/-- ScopeMap::look_up from src/passes.cpp: walk the parent chain. -/
def scope_lookup : Scope → String → Option Nat
  | [], _ => none
  | f :: r, n =>
    match alookup f n with
    | some t => some t
    | none => scope_lookup r n

/-- Build the template-variable frame: insert the ith template parameter name
bound to the ith concrete argument, in order, without overwriting. -/
def build_tv : Frame → List String → List Nat → Frame
  | acc, n :: ns, a :: as2 => build_tv (frame_insert n (some a) acc) ns as2
  | acc, _, _ => acc

/-- Record a diagnostic (Errors::add_error); newest first. -/
def push_err (e : Err) (st : St) : St := { st with errs := e :: st.errs }

/-- Pass1::get_builtin_type specialized to VoidType: create the node on first
use with a fresh id and append it to the program type list. -/
def get_void_type (st : St) : Nat × St :=
  match st.voidType with
  | some t => (t, st)
  | none =>
    let id := st.nextId + 1
    (id, { st with nextId := id, voidType := some id,
                   types := st.types ++ [id],
                   typeTable := ainsert id TypeNode.voidT st.typeTable })

/-- Pass1::get_builtin_type specialized to IntType. -/
def get_int_type (st : St) : Nat × St :=
  match st.intType with
  | some t => (t, st)
  | none =>
    let id := st.nextId + 1
    (id, { st with nextId := id, intType := some id,
                   types := st.types ++ [id],
                   typeTable := ainsert id TypeNode.intT st.typeTable })

/-- Pass1::get_name from src/passes.cpp: a Name yields its identifier, any
other expression records the invalid-expression diagnostic and yields the
null string view (none). -/
def get_name (e : SExpr) (st : St) : Option String × St :=
  match e with
  | .name s => (some s, st)
  | _ => (none, push_err .expectedName st)

/-- Pass1::get_member_type from src/passes.cpp: a null receiver type
propagates silently, a non-structure type and a missing field are
diagnosed. -/
def get_member_type (structType : Option Nat) (memberName : String) (st : St) : Option Nat × St :=
  match structType with
  | none => (none, st)
  | some t =>
    match alookup st.typeTable t with
    | some (.structT _ _) =>
      match alookup ((alookup st.memberTable t).getD []) memberName with
      | some mty => (mty, st)
      | none => (none, push_err (.noSuchField memberName) st)
    | _ => (none, push_err .expectedStructType st)

/-- The structure search loop of Pass1::get_type: count the declarations with
this name, keeping the last match (index and declaration). -/
def find_structure (name : String) : List SStructure → Nat → Nat → Option (Nat × SStructure) → Nat × Option (Nat × SStructure)
  | [], _, c, best => (c, best)
  | s :: r, i, c, best =>
    if s.name = name then find_structure name r (i + 1) (c + 1) (some (i, s))
    else find_structure name r (i + 1) c best

/-- Extract a list of non-null type ids; none when any entry is null. -/
def all_some : List (Option Nat) → Option (List Nat)
  | [] => some []
  | none :: _ => none
  | some a :: r => (all_some r).map (fun l => a :: l)

/-- Unification::is_variable from src/passes.cpp. -/
def is_variable (tnames : List String) (name : String) : Bool :=
  tnames.contains name

/-- Unification::set_variable from src/passes.cpp: find the first template
parameter with this name; an empty slot is filled, a filled slot must already
hold the same type. -/
def set_variable : List String → String → Nat → List (Option Nat) → Bool × List (Option Nat)
  | [], _, _, slots => (false, slots)
  | _, _, _, [] => (false, [])
  | tn :: tns, name, t, s :: ss =>
    if tn = name then
      match s with
      | some u => (decide (u = t), s :: ss)
      | none => (true, some t :: ss)
    else
      let r := set_variable tns name t ss
      (r.1, s :: r.2)

mutual

/-- Pass1::instantiate_structure from src/passes.cpp.  Arity is checked, the
memo is consulted, and otherwise a fresh node is created, memoized before its
member types are resolved, and appended to the program type list after. -/
def instantiate_structure (p : SProgram) (fuel : Nat) (sIdx : Nat) (targs : List Nat) (st : St) : Option (Option Nat × St) :=
  match p.structures.get? sIdx with
  | none => some (none, st)
  | some s =>
    if targs.length ≠ s.template_arguments.length then some (none, st)
    else
      match alookup st.smemo (sIdx, targs) with
      | some tid => some (some tid, st)
      | none =>
        match fuel with
        | 0 => none
        | f + 1 =>
          let tid := st.nextId + 1
          let tv := build_tv [] s.template_arguments targs
          let st1 : St := { st with nextId := tid,
                                    typeTable := ainsert tid (TypeNode.structT sIdx targs) st.typeTable,
                                    smemo := ainsert (sIdx, targs) tid st.smemo }
          match instantiate_structure_members p f tv s.members st1 with
          | none => none
          | some (ms, st2) =>
            some (some tid, { st2 with memberTable := ainsert tid ms st2.memberTable,
                                       types := st2.types ++ [tid] })

/-- The member loop of Pass1::instantiate_structure: resolve each declared
member type under the instantiation type-variable scope. -/
def instantiate_structure_members (p : SProgram) (fuel : Nat) (tv : Frame) (ms : List (String × SExpr)) (st : St) : Option (List (String × Option Nat) × St) :=
  match fuel with
  | 0 => none
  | f + 1 =>
    match ms with
    | [] => some ([], st)
    | (n, te) :: rest =>
      match handle_type p f tv te st with
      | none => none
      | some (t, st1) =>
        match instantiate_structure_members p f tv rest st1 with
        | none => none
        | some (ms2, st2) => some ((n, t) :: ms2, st2)

/-- Pass1::instantiate_function from src/passes.cpp.  Arity is checked, the
memo is consulted, and otherwise a fresh instantiation is created; argument
and return types are resolved, the memo is inserted before the body is
walked, and the instantiation is appended to the program list after. -/
def instantiate_function (p : SProgram) (fuel : Nat) (fIdx : Nat) (targs : List Nat) (st : St) : Option (Option Nat × St) :=
  match p.functions.get? fIdx with
  | none => some (none, st)
  | some fn =>
    if targs.length ≠ fn.template_arguments.length then some (none, st)
    else
      match alookup st.fmemo (fIdx, targs) with
      | some fid => some (some fid, st)
      | none =>
        match fuel with
        | 0 => none
        | f + 1 =>
          let fid := st.nextId + 1
          let tv := build_tv [] fn.template_arguments targs
          let st1 : St := { st with nextId := fid }
          match instantiate_function_args p f tv fn.arguments [] st1 with
          | none => none
          | some (iargs, frame, st2) =>
            match handle_type p f tv fn.return_type st2 with
            | none => none
            | some (rt, st3) =>
              let st4 : St := { st3 with fnTable := ainsert fid ⟨fIdx, targs, iargs, rt⟩ st3.fnTable,
                                         fmemo := ainsert (fIdx, targs) fid st3.fmemo }
              match handle_block p f [frame] tv fn.block st4 with
              | none => none
              | some (stmts, st5) =>
                some (some fid, { st5 with fnBlocks := ainsert fid stmts st5.fnBlocks,
                                           fnInsts := st5.fnInsts ++ [fid] })

/-- The argument loop of Pass1::instantiate_function: resolve each declared
argument type under the template scope and bind it in the fresh variable
frame (null types are skipped by ScopeMap::insert). -/
def instantiate_function_args (p : SProgram) (fuel : Nat) (tv : Frame) (args : List (String × SExpr)) (frame : Frame) (st : St) : Option (List (String × Option Nat) × Frame × St) :=
  match fuel with
  | 0 => none
  | f + 1 =>
    match args with
    | [] => some ([], frame, st)
    | (n, te) :: rest =>
      match handle_type p f tv te st with
      | none => none
      | some (t, st1) =>
        match instantiate_function_args p f tv rest (frame_insert n t frame) st1 with
        | none => none
        | some (rest2, fr2, st2) => some ((n, t) :: rest2, fr2, st2)

/-- Pass1::get_type (name and type-argument overload) from src/passes.cpp:
null name and null arguments propagate silently, Void and Int with no
arguments resolve to the builtins, otherwise the structure declarations are
searched and arity-checked before instantiating. -/
def get_type (p : SProgram) (fuel : Nat) (name : Option String) (args : List (Option Nat)) (st : St) : Option (Option Nat × St) :=
  match fuel with
  | 0 => none
  | f + 1 =>
    match name with
    | none => some (none, st)
    | some n =>
      match all_some args with
      | none => some (none, st)
      | some argIds =>
        if n = "Void" ∧ argIds.isEmpty then
          let r := get_void_type st
          some (some r.1, r.2)
        else if n = "Int" ∧ argIds.isEmpty then
          let r := get_int_type st
          some (some r.1, r.2)
        else
          match find_structure n p.structures 0 0 none with
          | (c, best) =>
            if c = 0 then some (none, push_err (.structNotFound n) st)
            else if c = 1 then
              match best with
              | some (idx, s) =>
                if s.template_arguments.length ≠ argIds.length then
                  some (none, push_err (.badTemplateArity n) st)
                else instantiate_structure p f idx argIds st
              | none => some (none, st)
            else some (none, push_err (.multipleStructs c n) st)

/-- Pass1::handle_type from src/passes.cpp: a Name is first looked up among
the template variables and otherwise resolved as a named type; a Call
resolves its callee name and evaluates its arguments as types; any other
shape yields null silently. -/
def handle_type (p : SProgram) (fuel : Nat) (tv : Frame) (e : SExpr) (st : St) : Option (Option Nat × St) :=
  match fuel with
  | 0 => none
  | f + 1 =>
    match e with
    | .name n =>
      match alookup tv n with
      | some t => some (some t, st)
      | none => get_type p f (some n) [] st
    | .call callee args =>
      match get_name callee st with
      | (n, st1) =>
        match handle_type_list p f tv args st1 with
        | none => none
        | some (ts, st2) => get_type p f n ts st2
    | _ => some (none, st)

/-- The argument loop of the Call case of Pass1::handle_type. -/
def handle_type_list (p : SProgram) (fuel : Nat) (tv : Frame) (es : List SExpr) (st : St) : Option (List (Option Nat) × St) :=
  match fuel with
  | 0 => none
  | f + 1 =>
    match es with
    | [] => some ([], st)
    | e :: rest =>
      match handle_type p f tv e st with
      | none => none
      | some (t, st1) =>
        match handle_type_list p f tv rest st1 with
        | none => none
        | some (ts, st2) => some (t :: ts, st2)

/-- Unification::match from src/passes.cpp.  Returns the success flag and the
updated template-argument slots; a null actual type fails, a template
parameter name binds or checks its slot, a concrete name is resolved through
get_type (which can record diagnostics) and compared by identity, and a call
pattern matches a structure instantiation of the same name and arity
positionally. -/
def unify_match (p : SProgram) (fuel : Nat) (tnames : List String) (pat : SExpr) (actual : Option Nat) (slots : List (Option Nat)) (st : St) : Option ((Bool × List (Option Nat)) × St) :=
  match fuel with
  | 0 => none
  | f + 1 =>
    match actual with
    | none => some ((false, slots), st)
    | some a =>
      match pat with
      | .name n =>
        if is_variable tnames n then
          some (set_variable tnames n a slots, st)
        else
          match get_type p f (some n) [] st with
          | none => none
          | some (t, st1) =>
            match t with
            | some tt => some ((decide (tt = a), slots), st1)
            | none => some ((false, slots), st1)
      | .call callee cargs =>
        match get_name callee st with
        | (n, st1) =>
          match alookup st1.typeTable a with
          | some (.structT sIdx stargs) =>
            match p.structures.get? sIdx with
            | some s =>
              if n ≠ some s.name then some ((false, slots), st1)
              else if cargs.length ≠ stargs.length then some ((false, slots), st1)
              else unify_match_list p f tnames cargs (stargs.map some) slots st1
            | none => some ((false, slots), st1)
          | _ => some ((false, slots), st1)
      | _ => some ((false, slots), st)

/-- Positional recursion of Unification::match over the template arguments of
a call pattern; stops at the first failure. -/
def unify_match_list (p : SProgram) (fuel : Nat) (tnames : List String) (pats : List SExpr) (actuals : List (Option Nat)) (slots : List (Option Nat)) (st : St) : Option ((Bool × List (Option Nat)) × St) :=
  match fuel with
  | 0 => none
  | f + 1 =>
    match pats, actuals with
    | pt :: pr, a :: ar =>
      match unify_match p f tnames pt a slots st with
      | none => none
      | some ((b, slots1), st1) =>
        if b then unify_match_list p f tnames pr ar slots1 st1
        else some ((false, slots1), st1)
    | _, _ => some ((true, slots), st)

/-- Unification::run from src/passes.cpp: arity check, then match every
argument pattern against the actual argument types, optionally match the
return pattern against the expected type, and require every slot filled. -/
def unify_run (p : SProgram) (fuel : Nat) (fn : SFunction) (argTypes : List (Option Nat)) (returnType : Option Nat) (st : St) : Option (Option (List Nat) × St) :=
  match fuel with
  | 0 => none
  | f + 1 =>
    if fn.arguments.length ≠ argTypes.length then some (none, st)
    else
      match unify_match_list p f fn.template_arguments (fn.arguments.map Prod.snd) argTypes (List.replicate fn.template_arguments.length none) st with
      | none => none
      | some ((b, slots1), st1) =>
        if b then
          match returnType with
          | none =>
            match all_some slots1 with
            | some ts => some (some ts, st1)
            | none => some (none, st1)
          | some rt =>
            match unify_match p f fn.template_arguments fn.return_type (some rt) slots1 st1 with
            | none => none
            | some ((b2, slots2), st2) =>
              if b2 then
                match all_some slots2 with
                | some ts => some (some ts, st2)
                | none => some (none, st2)
              else some (none, st2)
        else some (none, st1)

/-- The candidate loop of Pass1::get_function: run unification against every
declaration with the requested name, counting matches and keeping the last
matching declaration and its inferred template arguments. -/
def get_function_loop (p : SProgram) (fuel : Nat) (name : String) (argTypes : List (Option Nat)) (returnType : Option Nat) (idx : Nat) (fns : List SFunction) (count : Nat) (bestIdx : Nat) (bestTargs : List Nat) (st : St) : Option ((Nat × Nat × List Nat) × St) :=
  match fuel with
  | 0 => none
  | f + 1 =>
    match fns with
    | [] => some ((count, bestIdx, bestTargs), st)
    | fn :: rest =>
      if fn.name = name then
        match unify_run p f fn argTypes returnType st with
        | none => none
        | some (r, st1) =>
          match r with
          | some targs => get_function_loop p f name argTypes returnType (idx + 1) rest (count + 1) idx targs st1
          | none => get_function_loop p f name argTypes returnType (idx + 1) rest count bestIdx bestTargs st1
      else get_function_loop p f name argTypes returnType (idx + 1) rest count bestIdx bestTargs st

/-- Pass1::get_function from src/passes.cpp: a null name propagates silently;
exactly one unification match instantiates, zero or multiple matches are
diagnosed. -/
def get_function (p : SProgram) (fuel : Nat) (name : Option String) (argTypes : List (Option Nat)) (returnType : Option Nat) (st : St) : Option (Option Nat × St) :=
  match fuel with
  | 0 => none
  | f + 1 =>
    match name with
    | none => some (none, st)
    | some n =>
      match get_function_loop p f n argTypes returnType 0 p.functions 0 0 [] st with
      | none => none
      | some ((count, bestIdx, bestTargs), st1) =>
        if count = 1 then instantiate_function p f bestIdx bestTargs st1
        else if count = 0 then some (none, push_err (.noMatchingFunction n) st1)
        else some (none, push_err (.multipleMatchingFunctions count n) st1)

/-- Pass1::handle_expression_ from src/passes.cpp (the wrapper only copies the
source location, which is not modeled, so its null-input check is inlined at
each optional call site). -/
def handle_expression (p : SProgram) (fuel : Nat) (vars : Scope) (tv : Frame) (e : SExpr) (expectedType : Option Nat) (st : St) : Option (Option IExpr × St) :=
  match fuel with
  | 0 => none
  | f + 1 =>
    match e with
    | .intLit v =>
      match get_int_type st with
      | (it, st1) => some (some (.intLit v (some it)), st1)
    | .name n =>
      match scope_lookup vars n with
      | none => some (none, push_err (.undefinedVariable n) st)
      | some t => some (some (.name n (some t)), st)
    | .binary op l r =>
      match handle_expression p f vars tv l none st with
      | none => none
      | some (le, st1) =>
        match handle_expression p f vars tv r none st1 with
        | none => none
        | some (re, st2) =>
          match le, re with
          | some le2, some re2 =>
            match get_int_type st2 with
            | (it, st3) =>
              if le2.tyOf = some it ∧ re2.tyOf = some it then
                some (some (.binary op le2 re2 le2.tyOf), st3)
              else some (none, push_err .invalidBinary st3)
          | _, _ => some (none, st2)
    | .assign l r =>
      match handle_expression p f vars tv l none st with
      | none => none
      | some (le, st1) =>
        match handle_expression p f vars tv r none st1 with
        | none => none
        | some (re, st2) =>
          let ty := le.bind IExpr.tyOf
          let c1 : St × Bool :=
            match le with
            | some (.name _ _) => (st2, false)
            | some _ => (push_err .expectedName st2, true)
            | none => (st2, false)
          let c2 : St × Bool :=
            match re, ty with
            | some re2, some t =>
              if re2.tyOf ≠ some t then (push_err .typeMismatch c1.1, true) else (c1.1, false)
            | _, _ => (c1.1, false)
          if le.isNone ∨ re.isNone ∨ c1.2 ∨ c2.2 then some (none, c2.1)
          else
            match le, re with
            | some le2, some re2 => some (some (.assign le2 re2 ty), c2.1)
            | _, _ => some (none, c2.1)
    | .call callee args =>
      match callee with
      | .member recv mname =>
        match handle_expression p f vars tv recv none st with
        | none => none
        | some (r0, st1) => handle_call_args p f vars tv (some mname) expectedType [r0] args st1
      | _ =>
        match get_name callee st with
        | (n, st1) => handle_call_args p f vars tv n expectedType [] args st1
    | .member recv mname =>
      match handle_expression p f vars tv recv none st with
      | none => none
      | some (r0, st1) =>
        match get_member_type (r0.bind IExpr.tyOf) mname st1 with
        | (mt, st2) =>
          match r0, mt with
          | some r2, some t => some (some (.member r2 mname (some t)), st2)
          | _, _ => some (none, st2)

/-- The argument-evaluation loop and overload resolution of the Call case of
Pass1::handle_expression_, fused into one tail recursion: after the pending
syntactic arguments are evaluated, get_function resolves the overload and the
typed Call node is built from the accumulated arguments and the return type
of the chosen instantiation. -/
def handle_call_args (p : SProgram) (fuel : Nat) (vars : Scope) (tv : Frame) (name : Option String) (expectedType : Option Nat) (acc : List (Option IExpr)) (pending : List SExpr) (st : St) : Option (Option IExpr × St) :=
  match fuel with
  | 0 => none
  | f + 1 =>
    match pending with
    | [] =>
      match get_function p f name (acc.map (fun a => a.bind IExpr.tyOf)) expectedType st with
      | none => none
      | some (r, st1) =>
        match r with
        | none => some (none, st1)
        | some fid =>
          let rt := match alookup st1.fnTable fid with
            | some fe => fe.returnType
            | none => none
          some (some (.call fid acc rt), st1)
    | a :: rest =>
      match handle_expression p f vars tv a none st with
      | none => none
      | some (ae, st1) => handle_call_args p f vars tv name expectedType (acc ++ [ae]) rest st1

/-- Pass1::handle_statement from src/passes.cpp.  The possibly updated
variable scope is returned alongside the statement because a let statement
binds into the current frame. -/
def handle_statement (p : SProgram) (fuel : Nat) (vars : Scope) (tv : Frame) (s : SStmt) (st : St) : Option ((Option IStmt × Scope) × St) :=
  match fuel with
  | 0 => none
  | f + 1 =>
    match s with
    | .blockS ss =>
      match handle_block p f vars tv ss st with
      | none => none
      | some (stmts, st1) => some ((some (.blockS stmts), vars), st1)
    | .emptyS => some ((some .emptyS, vars), st)
    | .letS n declType init =>
      match (match declType with
             | none => some ((none : Option Nat), st)
             | some te => handle_type p f tv te st) with
      | none => none
      | some (t0, st1) =>
        match handle_expression p f vars tv init t0 st1 with
        | none => none
        | some (e2, st2) =>
          let ty := match t0 with
            | some t => some t
            | none => e2.bind IExpr.tyOf
          let c1 : St × Bool :=
            match e2, ty with
            | some e3, some t =>
              if e3.tyOf ≠ some t then (push_err .typeMismatch st2, true) else (st2, false)
            | _, _ => (st2, false)
          let vars2 := scope_insert n ty vars
          if ty.isNone ∨ e2.isNone ∨ c1.2 then some ((none, vars2), c1.1)
          else
            match e2, ty with
            | some e3, some t => some ((some (.letS n t e3), vars2), c1.1)
            | _, _ => some ((none, vars2), c1.1)
    | .ifS c t e =>
      match get_int_type st with
      | (it, st0) =>
        match handle_expression p f vars tv c (some it) st0 with
        | none => none
        | some (ce, st1) =>
          match handle_statement p f vars tv t st1 with
          | none => none
          | some ((te, vars1), st2) =>
            match handle_statement p f vars1 tv e st2 with
            | none => none
            | some ((ee, vars2), st3) =>
              let c1 : St × Bool :=
                match ce with
                | some ce2 =>
                  if ce2.tyOf ≠ some it then (push_err .typeMismatch st3, true) else (st3, false)
                | none => (st3, false)
              if ce.isNone ∨ te.isNone ∨ ee.isNone ∨ c1.2 then some ((none, vars2), c1.1)
              else
                match ce, te, ee with
                | some c2, some t2, some e3 => some ((some (.ifS c2 t2 e3), vars2), c1.1)
                | _, _, _ => some ((none, vars2), c1.1)
    | .whileS c b =>
      match get_int_type st with
      | (it, st0) =>
        match handle_expression p f vars tv c (some it) st0 with
        | none => none
        | some (ce, st1) =>
          match handle_statement p f vars tv b st1 with
          | none => none
          | some ((be, vars1), st2) =>
            let c1 : St × Bool :=
              match ce with
              | some ce2 =>
                if ce2.tyOf ≠ some it then (push_err .typeMismatch st2, true) else (st2, false)
              | none => (st2, false)
            if ce.isNone ∨ be.isNone ∨ c1.2 then some ((none, vars1), c1.1)
            else
              match ce, be with
              | some c2, some b2 => some ((some (.whileS c2 b2), vars1), c1.1)
              | _, _ => some ((none, vars1), c1.1)
    | .returnS eo =>
      match (match eo with
             | none => some ((none : Option IExpr), st)
             | some e0 => handle_expression p f vars tv e0 none st) with
      | none => none
      | some (e2, st1) => some ((some (.returnS e2), vars), st1)
    | .exprS e0 =>
      match handle_expression p f vars tv e0 none st with
      | none => none
      | some (e2, st1) =>
        match e2 with
        | none => some ((none, vars), st1)
        | some e3 => some ((some (.exprS e3), vars), st1)

/-- The statement loop of Pass1::handle_block: statements that fail are
dropped from the resulting block; scope changes thread on. -/
def handle_statements (p : SProgram) (fuel : Nat) (vars : Scope) (tv : Frame) (ss : List SStmt) (st : St) : Option ((List IStmt × Scope) × St) :=
  match fuel with
  | 0 => none
  | f + 1 =>
    match ss with
    | [] => some (([], vars), st)
    | s :: rest =>
      match handle_statement p f vars tv s st with
      | none => none
      | some ((s2, vars1), st1) =>
        match handle_statements p f vars1 tv rest st1 with
        | none => none
        | some ((rest2, vars2), st2) =>
          match s2 with
          | none => some ((rest2, vars2), st2)
          | some s3 => some ((s3 :: rest2, vars2), st2)

/-- Pass1::handle_block from src/passes.cpp: a fresh scope frame is pushed for
the block and popped afterwards (statements only ever bind into the innermost
frame, so the outer scope is returned unchanged). -/
def handle_block (p : SProgram) (fuel : Nat) (vars : Scope) (tv : Frame) (ss : List SStmt) (st : St) : Option (List IStmt × St) :=
  match fuel with
  | 0 => none
  | f + 1 =>
    match handle_statements p f ([] :: vars) tv ss st with
    | none => none
    | some ((stmts, _), st1) => some (stmts, st1)

end

/-- Pass1::run from src/passes.cpp: demand main with no arguments and the
expected return type Void; on success record the main function id. -/
def pass1_run (p : SProgram) (fuel : Nat) : Option St :=
  match get_void_type St0 with
  | (v, st) =>
    match get_function p fuel (some "main") [] (some v) st with
    | none => none
    | some (r, st1) =>
      match r with
      | none => some st1
      | some fid => some { st1 with mainId := fid }


/-- One top-level item of the emitted C file, from PrintProgram::print in
src/codegen_c.cpp: a typedef (Void, Int) or struct definition per entry of
the program type list in list order, then a forward declaration per function
instantiation in list order, then a definition per function instantiation in
list order, then the C main calling the main instantiation. -/
inductive CItem
  | typedefItem (id : Nat)
  | structItem (id : Nat)
  | fnDecl (id : Nat)
  | fnDef (id : Nat)
  | cMain (id : Nat)
deriving DecidableEq, Repr

/-- The emission order of PrintProgram::print in src/codegen_c.cpp. -/
def codegen_items (st : St) : List CItem :=
  st.types.map (fun id =>
    match alookup st.typeTable id with
    | some (.structT _ _) => CItem.structItem id
    | _ => CItem.typedefItem id)
  ++ st.fnInsts.map CItem.fnDecl
  ++ st.fnInsts.map CItem.fnDef
  ++ [CItem.cMain st.mainId]

/-- The ids of the emitted type items, in emission order. -/
def type_item_ids (items : List CItem) : List Nat :=
  items.filterMap (fun i =>
    match i with
    | .typedefItem id => some id
    | .structItem id => some id
    | _ => none)

/-- The ids of the emitted function forward declarations, in emission order. -/
def fn_decl_ids (items : List CItem) : List Nat :=
  items.filterMap (fun i =>
    match i with
    | .fnDecl id => some id
    | _ => none)

/-- Outcome of parse_program as observed by main in src/main.cpp. -/
inductive ParseOutcome
  | perror
  | pfailure
  | psuccess
deriving DecidableEq, Repr

/-- Observable behavior of one invocation of main from src/main.cpp: the exit
code, the lines printed to standard output, whether a parse error was
rendered, and the files written.  main only parses: it never calls pass1 or
codegen_c and performs no writes, so filesWritten is empty on every path. -/
structure MainResult where
  exitCode : Nat
  stdoutLines : List String
  errorPrinted : Bool
  filesWritten : List String
deriving DecidableEq, Repr

/-- main from src/main.cpp: with no path argument exit 1; otherwise parse and
report.  The fall-through success path returns 0 and prints the single line
success; no file is ever written. -/
def main_model (argc : Nat) (outcome : ParseOutcome) : MainResult :=
  if argc ≤ 1 then { exitCode := 1, stdoutLines := [], errorPrinted := false, filesWritten := [] }
  else
    match outcome with
    | .perror => { exitCode := 1, stdoutLines := [], errorPrinted := true, filesWritten := [] }
    | .pfailure => { exitCode := 1, stdoutLines := ["failure"], errorPrinted := false, filesWritten := [] }
    | .psuccess => { exitCode := 0, stdoutLines := ["success"], errorPrinted := false, filesWritten := [] }

/-- Strictly ascending list of ids. -/
def ascendingB : List Nat → Bool
  | [] => true
  | [_] => true
  | a :: b :: r => decide (a < b) && ascendingB (b :: r)

/-- No duplicate entries. -/
def nodupB : List Nat → Bool
  | [] => true
  | a :: r => !(r.contains a) && nodupB r

/-- Every id is positive. -/
def positiveB (l : List Nat) : Bool := l.all (fun i => decide (1 ≤ i))

/-- The two lists share no entry. -/
def disjointB (l1 l2 : List Nat) : Bool := l1.all (fun i => !(l2.contains i))

mutual

/-- Every node of this IR expression carries a non-null type, and every
argument slot of a Call node holds a (typed) expression. -/
def exprTypedB : IExpr → Bool
  | .intLit _ t => t.isSome
  | .name _ t => t.isSome
  | .binary _ l r t => t.isSome && exprTypedB l && exprTypedB r
  | .assign l r t => t.isSome && exprTypedB l && exprTypedB r
  | .call _ args t => t.isSome && argsTypedB args
  | .member e _ t => t.isSome && exprTypedB e

/-- All argument slots are non-null and typed. -/
def argsTypedB : List (Option IExpr) → Bool
  | [] => true
  | none :: _ => false
  | some e :: r => exprTypedB e && argsTypedB r

end

mutual

/-- Every expression inside this IR statement is typed. -/
def stmtTypedB : IStmt → Bool
  | .blockS ss => stmtsTypedB ss
  | .emptyS => true
  | .letS _ _ e => exprTypedB e
  | .ifS c t e => exprTypedB c && stmtTypedB t && stmtTypedB e
  | .whileS c b => exprTypedB c && stmtTypedB b
  | .returnS none => true
  | .returnS (some e) => exprTypedB e
  | .exprS e => exprTypedB e

/-- Every expression inside these IR statements is typed. -/
def stmtsTypedB : List IStmt → Bool
  | [] => true
  | s :: r => stmtTypedB s && stmtsTypedB r

end

/-- Every expression reachable in the semantic IR of the analyzed program
(the bodies of all function instantiations) is typed. -/
def blocksTypedB (st : St) : Bool :=
  st.fnBlocks.all (fun kb => stmtsTypedB kb.2)

mutual

/-- The expression has the shape produced by the type grammar of the parser
(identifiers with template-argument postfixes); only such shapes reach
handle_type without either resolving or recording a diagnostic. -/
def wfTypeExprB : SExpr → Bool
  | .name _ => true
  | .call _ args => wfTypeExprsB args
  | _ => false

/-- All expressions have type-grammar shape. -/
def wfTypeExprsB : List SExpr → Bool
  | [] => true
  | e :: r => wfTypeExprB e && wfTypeExprsB r

end

/-- Every function return type of the program has type-grammar shape; the
parser guarantees this for every program it produces. -/
def wfProgramB (p : SProgram) : Bool :=
  p.functions.all (fun fn => wfTypeExprB fn.return_type)

/-- Semantic analysis of this program terminates: some fuel suffices. -/
def pass1_terminates (p : SProgram) : Prop :=
  ∃ fuel, (pass1_run p fuel).isSome = true


/-- Whitespace characters of the lexical layer in src/parser.cpp. -/
def is_ws (c : Char) : Bool :=
  c = ' ' ∨ c = '\t' ∨ c = '\n' ∨ c = '\r'

/-- Decimal digit. -/
def is_digit (c : Char) : Bool := '0' ≤ c ∧ c ≤ '9'

/-- Identifier start character. -/
def is_alpha (c : Char) : Bool :=
  ('a' ≤ c ∧ c ≤ 'z') ∨ ('A' ≤ c ∧ c ≤ 'Z') ∨ c = '_'

/-- Identifier continue character. -/
def is_alnum (c : Char) : Bool := is_alpha c ∨ is_digit c

/-- Consume a line comment up to (not including) the newline. -/
def drop_line_comment : List Char → List Char
  | [] => []
  | c :: r => if c = '\n' then c :: r else drop_line_comment r

/-- Consume a block comment body up to and including the closing delimiter;
none when unterminated (the expect in the comment grammar turns that into a
parse error). -/
def drop_block_comment : List Char → Option (List Char)
  | [] => none
  | '*' :: '/' :: r => some r
  | _ :: r => drop_block_comment r

/-- The whitespace combinator of src/parser.cpp: whitespace characters and
comments interleaved; none means a parse error (unterminated block comment)
or fuel exhaustion. -/
def skip_ws : Nat → List Char → Option (List Char)
  | 0, _ => none
  | fu + 1, s =>
    let s1 := s.dropWhile is_ws
    match s1 with
    | '/' :: '/' :: r => skip_ws fu (drop_line_comment r)
    | '/' :: '*' :: r =>
      match drop_block_comment r with
      | none => none
      | some r2 => skip_ws fu r2
    | _ => some s1

/-- The identifier combinator: an identifier-start character followed by
identifier-continue characters. -/
def parse_identifier : List Char → Option (String × List Char)
  | [] => none
  | c :: r =>
    if is_alpha c then some (String.mk (c :: r.takeWhile is_alnum), r.dropWhile is_alnum)
    else none

/-- Wrap to the signed 32 bit range (the IntCollector accumulator of
src/parser.cpp is an int32_t and wrap is tolerated). -/
def wrap32 (n : Int) : Int := (n + 2 ^ 31) % 2 ^ 32 - 2 ^ 31

/-- Digit accumulation of the IntCollector. -/
def digits_value : Int → List Char → Int × List Char
  | acc, [] => (acc, [])
  | acc, c :: r =>
    if is_digit c then digits_value (wrap32 (acc * 10 + (Int.ofNat c.toNat - Int.ofNat '0'.toNat))) r
    else (acc, c :: r)

/-- The integer literal combinator: one or more digits, accumulating. -/
def parse_int_literal : List Char → Option (Int × List Char)
  | [] => none
  | c :: r =>
    if is_digit c then some (digits_value 0 (c :: r))
    else none

/-- Match a literal string. -/
def match_lit : List Char → List Char → Option (List Char)
  | [], s => some s
  | c :: r, d :: s => if c = d then match_lit r s else none
  | _ :: _, [] => none

/-- The keyword combinator of src/parser.cpp: the literal must not be
followed by an identifier-continue character. -/
def parse_keyword (kw : String) (s : List Char) : Option (List Char) :=
  match match_lit kw.toList s with
  | none => none
  | some r =>
    match r with
    | c :: _ => if is_alnum c then none else some r
    | [] => some r

/-- Outcomes of a parse attempt, following the combinator outcome model of
the spec: success with the rest of the input, failure (the caller resumes at
its own saved input), or an error that aborts all alternatives. -/
inductive PRes (α : Type)
  | ok (a : α) (rest : List Char)
  | fail
  | perr
deriving Repr

/-- Infix operator recognition per precedence level, transcribed from the
pratt_level table of expression_impl in src/parser.cpp: level 1 is equality,
level 2 comparison (where a lone less or greater must not be followed by an
equals sign), level 3 additive, level 4 multiplicative. -/
def match_op_at : Nat → List Char → Option (BinaryOperation × List Char)
  | 1, '=' :: '=' :: r => some (.eq, r)
  | 1, '!' :: '=' :: r => some (.ne, r)
  | 2, '<' :: '=' :: r => some (.le, r)
  | 2, '<' :: r => some (.lt, r)
  | 2, '>' :: '=' :: r => some (.ge, r)
  | 2, '>' :: r => some (.gt, r)
  | 3, '+' :: r => some (.add, r)
  | 3, '-' :: r => some (.sub, r)
  | 4, '*' :: r => some (.mul, r)
  | 4, '/' :: r => some (.div, r)
  | 4, '%' :: r => some (.rem, r)
  | _, _ => none

mutual

/-- Modelled from the spec: the generic pratt combinator engine lives in
parsley/pratt.hpp which is not under src, so the engine (how the levels
compose: infix right-to-left at level 0, infix left-to-right at levels 1-4,
postfix at level 5, terminals at level 6, with the stated
success/failure/error outcomes) follows section 4.2 of the spec, while the
level table itself is transcribed from expression_impl in src/parser.cpp.
Level 0 is assignment, right-to-left, where the equals sign must not be
followed by another equals sign. -/
def parse_level (fuel : Nat) (lvl : Nat) (s : List Char) : PRes SExpr :=
  match fuel with
  | 0 => .perr
  | f + 1 =>
    match lvl with
    | 0 =>
      match parse_level f 1 s with
      | .ok l rest =>
        match skip_ws (rest.length + 1) rest with
        | none => .perr
        | some r1 =>
          match r1 with
          | '=' :: '=' :: _ => .ok l rest
          | '=' :: r2 =>
            match skip_ws (r2.length + 1) r2 with
            | none => .perr
            | some r3 =>
              match parse_level f 0 r3 with
              | .ok rhs rest2 => .ok (.assign l rhs) rest2
              | e => e
          | _ => .ok l rest
      | e => e
    | 5 =>
      match parse_level f 6 s with
      | .ok t rest => parse_postfix_loop f t rest
      | e => e
    | 6 =>
      match s with
      | '(' :: r =>
        match skip_ws (r.length + 1) r with
        | none => .perr
        | some r1 =>
          match parse_level f 0 r1 with
          | .ok e rest =>
            match skip_ws (rest.length + 1) rest with
            | none => .perr
            | some r2 =>
              match r2 with
              | ')' :: r3 => .ok e r3
              | _ => .perr
          | e2 => e2
      | _ =>
        match parse_keyword "false" s with
        | some r => .ok (.intLit 0) r
        | none =>
          match parse_keyword "true" s with
          | some r => .ok (.intLit 1) r
          | none =>
            match parse_int_literal s with
            | some (v, r) => .ok (.intLit v) r
            | none =>
              match parse_identifier s with
              | some (n, r) => .ok (.name n) r
              | none => .perr
    | l =>
      match parse_level f (l + 1) s with
      | .ok e rest => parse_ltr_loop f l e rest
      | e2 => e2

/-- The infix left-to-right loop of a pratt level: repeatedly match one of
the level operators (surrounded by whitespace) and a next-level operand,
folding to the left; when no operator matches, yield the accumulated
expression at the position before the whitespace. -/
def parse_ltr_loop (fuel : Nat) (lvl : Nat) (acc : SExpr) (s : List Char) : PRes SExpr :=
  match fuel with
  | 0 => .perr
  | f + 1 =>
    match skip_ws (s.length + 1) s with
    | none => .perr
    | some r1 =>
      match match_op_at lvl r1 with
      | none => .ok acc s
      | some (op, r2) =>
        match skip_ws (r2.length + 1) r2 with
        | none => .perr
        | some r3 =>
          match parse_level f (lvl + 1) r3 with
          | .ok rhs rest => parse_ltr_loop f lvl (.binary op acc rhs) rest
          | e => e

/-- The postfix level of the expression grammar: call argument lists and
member accesses, repeated. -/
def parse_postfix_loop (fuel : Nat) (acc : SExpr) (s : List Char) : PRes SExpr :=
  match fuel with
  | 0 => .perr
  | f + 1 =>
    match skip_ws (s.length + 1) s with
    | none => .perr
    | some r1 =>
      match r1 with
      | '(' :: r2 =>
        match skip_ws (r2.length + 1) r2 with
        | none => .perr
        | some r3 =>
          match parse_call_list f r3 with
          | .ok args rest =>
            match skip_ws (rest.length + 1) rest with
            | none => .perr
            | some r4 =>
              match r4 with
              | ')' :: r5 => parse_postfix_loop f (.call acc args) r5
              | _ => .perr
          | .fail => .perr
          | .perr => .perr
      | '.' :: r2 =>
        match skip_ws (r2.length + 1) r2 with
        | none => .perr
        | some r3 =>
          match parse_identifier r3 with
          | some (n, r4) => parse_postfix_loop f (.member acc n) r4
          | none => .ok acc s
      | _ => .ok acc s

/-- The comma-separated argument list of a call: empty when the next
significant character closes the list, otherwise one expression followed by
comma-prefixed expressions. -/
def parse_call_list (fuel : Nat) (s : List Char) : PRes (List SExpr)  :=
  match fuel with
  | 0 => .perr
  | f + 1 =>
    match s with
    | [] => .ok [] s
    | ')' :: _ => .ok [] s
    | _ =>
      match parse_level f 0 s with
      | .ok e rest => parse_call_list_more f [e] rest
      | e2 =>
        match e2 with
        | .fail => .perr
        | _ => .perr

/-- Further comma-prefixed call arguments. -/
def parse_call_list_more (fuel : Nat) (acc : List SExpr) (s : List Char) : PRes (List SExpr) :=
  match fuel with
  | 0 => .perr
  | f + 1 =>
    match skip_ws (s.length + 1) s with
    | none => .perr
    | some r1 =>
      match r1 with
      | ',' :: r2 =>
        match skip_ws (r2.length + 1) r2 with
        | none => .perr
        | some r3 =>
          match r3 with
          | [] => .ok acc s
          | ')' :: _ => .ok acc s
          | _ =>
            match parse_level f 0 r3 with
            | .ok e rest => parse_call_list_more f (acc ++ [e]) rest
            | e2 =>
              match e2 with
              | .fail => .perr
              | _ => .perr
      | _ => .ok acc s

end

/-- Parse one expression from the start of the string with ample fuel. -/
def parse_expression (s : String) : PRes SExpr :=
  parse_level (s.length * 4 + 64) 0 s.toList


/-- A directly recursive program: func f(): Void (calling f()) and func main
calling f.  Monomorphization terminates because the recursive demand inside
the body of f hits the memo. -/
def progRec : SProgram :=
  { functions :=
      [ { name := "f", template_arguments := [], arguments := [],
          return_type := .name "Void",
          block := [ .exprS (.call (.name "f") []) ] },
        { name := "main", template_arguments := [], arguments := [],
          return_type := .name "Void",
          block := [ .exprS (.call (.name "f") []) ] } ],
    structures := [] }

/-- An accepted program in which completion order differs from demand order:
struct S with one member of type Int, func f(): S with an empty body, and
main binding let y to f().  The Int builtin is first created while the
members of S are resolved, after S already drew its id, and S is appended to
the type list after Int; the instantiation of f completes before the
instantiation of main that demanded it. -/
def progOrder : SProgram :=
  { functions :=
      [ { name := "f", template_arguments := [], arguments := [],
          return_type := .name "S",
          block := [] },
        { name := "main", template_arguments := [], arguments := [],
          return_type := .name "Void",
          block := [ .letS "y" none (.call (.name "f") []) ] } ],
    structures :=
      [ { name := "S", template_arguments := [], members := [("a", .name "Int")] } ] }

/-- A polymorphically recursive structure: struct S of T whose member a has
type S of S of T, and main demanding S of Int.  Every recursive demand uses a
strictly new type-argument tuple, so the memo never hits and semantic
analysis diverges. -/
def progDiv : SProgram :=
  { functions :=
      [ { name := "main", template_arguments := [], arguments := [],
          return_type := .name "Void",
          block := [ .letS "y" (some (.call (.name "S") [.name "Int"])) (.intLit 0) ] } ],
    structures :=
      [ { name := "S", template_arguments := ["T"],
          members := [("a", .call (.name "S") [.call (.name "S") [.name "T"]])] } ] }

/-- A call with a failed argument: func f(x: Int): Void and main calling f(y)
where y is undefined.  The analyzer records the undefined-variable diagnostic
for y and then a second no-matching-function diagnostic for the call. -/
def progC7 : SProgram :=
  { functions :=
      [ { name := "f", template_arguments := [], arguments := [("x", .name "Int")],
          return_type := .name "Void", block := [] },
        { name := "main", template_arguments := [], arguments := [],
          return_type := .name "Void",
          block := [ .exprS (.call (.name "f") [.name "y"]) ] } ],
    structures := [] }

/-- The analyzer state of the progDiv run just before the body of main is
walked: Void created (id 1), the instantiation of main created (id 2) and
memoized with return type Void. -/
def stDiv4 : St :=
  { nextId := 2, voidType := some 1, intType := none, types := [1],
    typeTable := [(1, .voidT)], memberTable := [], fnInsts := [],
    fnTable := [(2, ⟨0, [], [], some 1⟩)], fnBlocks := [], smemo := [],
    fmemo := [((0, []), 2)], errs := [], mainId := 0 }

/-- The progDiv run state after the Int builtin (id 3) was created while the
declared type of the let statement was being evaluated. -/
def stDivI : St :=
  { nextId := 3, voidType := some 1, intType := some 3, types := [1, 3],
    typeTable := [(3, .intT), (1, .voidT)], memberTable := [], fnInsts := [],
    fnTable := [(2, ⟨0, [], [], some 1⟩)], fnBlocks := [], smemo := [],
    fmemo := [((0, []), 2)], errs := [], mainId := 0 }

/-- The initial progDiv run state right after the Void builtin was created. -/
def stDivV : St :=
  { nextId := 1, voidType := some 1, intType := none, types := [1],
    typeTable := [(1, .voidT)], memberTable := [], fnInsts := [],
    fnTable := [], fnBlocks := [], smemo := [], fmemo := [], errs := [], mainId := 0 }

/-- The final analyzer state of the successful progOrder run (15 fuel). -/
def stOrder : St :=
  { nextId := 5, voidType := some 1, intType := some 5, types := [1, 5, 4],
    typeTable := [(5, .intT), (4, .structT 0 []), (1, .voidT)],
    memberTable := [(4, [("a", some 5)])], fnInsts := [3, 2],
    fnTable := [(3, ⟨0, [], [], some 4⟩), (2, ⟨1, [], [], some 1⟩)],
    fnBlocks := [(2, [.letS "y" 4 (.call 3 [] (some 4))]), (3, [])],
    smemo := [((0, []), 4)], fmemo := [((0, []), 3), ((1, []), 2)],
    errs := [], mainId := 2 }

/-- A one-structure program (struct S with no members) for the memo witness. -/
def pC1 : SProgram :=
  { functions := [], structures := [{ name := "S", template_arguments := [], members := [] }] }

/-- The state after instantiating S of pC1 once from the initial state. -/
def stC1 : St :=
  { nextId := 1, types := [1], typeTable := [(1, .structT 0 [])],
    memberTable := [(1, [])], smemo := [((0, []), 1)] }

/-- The state after the undefined-variable diagnostic for y. -/
def stW1 : St := push_err (.undefinedVariable "y") St0

/-- stW1 after the Int builtin was created for the literal 0. -/
def stW2 : St :=
  { stW1 with nextId := 1, intType := some 1, types := [1], typeTable := [(1, .intT)] }

/-- Id-counter, uniqueness and memo-table invariants of the analyzer state:
ids in the program type and instantiation lists are positive, bounded by the
counter, duplicate free and disjoint, and every memoized function id has a
function table entry. -/
structure SInv (st : St) : Prop where
  typesPos : ∀ i ∈ st.types, 1 ≤ i
  typesLe : ∀ i ∈ st.types, i ≤ st.nextId
  fnsPos : ∀ i ∈ st.fnInsts, 1 ≤ i
  fnsLe : ∀ i ∈ st.fnInsts, i ≤ st.nextId
  typesNodup : st.types.Nodup
  fnsNodup : st.fnInsts.Nodup
  disj : ∀ i ∈ st.types, i ∉ st.fnInsts
  memoFn : ∀ k fid, alookup st.fmemo k = some fid → ∃ fe, alookup st.fnTable fid = some fe

/-- While no diagnostic has been recorded, every function table entry has a
resolved return type and every walked body is fully typed. -/
def TyInv (st : St) : Prop :=
  st.errs = [] →
    st.fnTable.all (fun kv => kv.2.returnType.isSome) = true ∧
    st.fnBlocks.all (fun kb => stmtsTypedB kb.2) = true

/-- Facts relating the state before and after one analyzer operation:
memoized entries and table entries persist, the error list grows at the
front, the type and instantiation lists grow at the back with fresh ids, the
id counter does not decrease, and the invariants are preserved. -/
structure AStep (p : SProgram) (st st2 : St) : Prop where
  smemoLe : ∀ k v, alookup st.smemo k = some v → alookup st2.smemo k = some v
  fmemoLe : ∀ k v, alookup st.fmemo k = some v → alookup st2.fmemo k = some v
  fnTableLe : ∀ k v, alookup st.fnTable k = some v → alookup st2.fnTable k = some v
  errsExt : ∃ d, st2.errs = d ++ st.errs
  nextIdLe : st.nextId ≤ st2.nextId
  freshTypes : ∀ i, i ∈ st2.types → i ∉ st.types → st.nextId < i
  freshFns : ∀ i, i ∈ st2.fnInsts → i ∉ st.fnInsts → st.nextId < i
  invPres : SInv st → SInv st2
  tyPres : wfProgramB p = true → SInv st → TyInv st → TyInv st2


/-- The simultaneous induction motive over the fuel: for every analyzer
function, a completed call (fuel did not run out) satisfies the state-step
facts and the result facts needed by the claims. -/
structure MegaP (p : SProgram) (fuel : Nat) : Prop where
  pIS : ∀ sIdx targs st r st2, instantiate_structure p fuel sIdx targs st = some (r, st2) →
    AStep p st st2 ∧
    (∀ tid, r = some tid → alookup st2.smemo (sIdx, targs) = some tid) ∧
    (∀ sd, p.structures.get? sIdx = some sd → targs.length = sd.template_arguments.length →
      r.isSome = true) ∧
    st2.fmemo = st.fmemo
  pISM : ∀ tv ms st r st2, instantiate_structure_members p fuel tv ms st = some (r, st2) →
    AStep p st st2 ∧ st2.fmemo = st.fmemo
  pIF : ∀ fIdx targs st r st2, instantiate_function p fuel fIdx targs st = some (r, st2) →
    AStep p st st2 ∧
    (∀ fid, r = some fid → alookup st2.fmemo (fIdx, targs) = some fid ∧
      (SInv st → ∃ fe, alookup st2.fnTable fid = some fe)) ∧
    (∀ fn, p.functions.get? fIdx = some fn → targs.length = fn.template_arguments.length →
      r.isSome = true)
  pIFA : ∀ tv args frame st iargs fr2 st2,
    instantiate_function_args p fuel tv args frame st = some (iargs, fr2, st2) →
    AStep p st st2 ∧ st2.fmemo = st.fmemo
  pGT : ∀ name args st r st2, get_type p fuel name args st = some (r, st2) →
    AStep p st st2 ∧
    (st2.errs = [] → ∀ n2, name = some n2 → args.all Option.isSome = true → r.isSome = true) ∧
    st2.fmemo = st.fmemo
  pHT : ∀ tv e st r st2, handle_type p fuel tv e st = some (r, st2) →
    AStep p st st2 ∧
    (st2.errs = [] → wfTypeExprB e = true → r.isSome = true) ∧
    st2.fmemo = st.fmemo
  pHTL : ∀ tv es st r st2, handle_type_list p fuel tv es st = some (r, st2) →
    AStep p st st2 ∧
    (st2.errs = [] → wfTypeExprsB es = true → r.all Option.isSome = true) ∧
    st2.fmemo = st.fmemo
  pUM : ∀ tnames pat actual slots st b slots2 st2,
    unify_match p fuel tnames pat actual slots st = some ((b, slots2), st2) →
    AStep p st st2 ∧ slots2.length = slots.length ∧ (b = true → actual.isSome = true)
  pUML : ∀ tnames pats actuals slots st b slots2 st2,
    unify_match_list p fuel tnames pats actuals slots st = some ((b, slots2), st2) →
    AStep p st st2 ∧ slots2.length = slots.length ∧
    (b = true → pats.length = actuals.length → actuals.all Option.isSome = true)
  pUR : ∀ fn argTys rt st r st2, unify_run p fuel fn argTys rt st = some (r, st2) →
    AStep p st st2 ∧
    (∀ ts, r = some ts → argTys.all Option.isSome = true ∧
      ts.length = fn.template_arguments.length)
  pGFL : ∀ nm argTys rt idx fns count bi bt st res st2,
    get_function_loop p fuel nm argTys rt idx fns count bi bt st = some (res, st2) →
    AStep p st st2 ∧
    ((res.1 = count ∧ res.2.1 = bi ∧ res.2.2 = bt) ∨
     (count < res.1 ∧
      ((∀ i fn2, fns.get? i = some fn2 → p.functions.get? (idx + i) = some fn2) →
       ∃ fn2, p.functions.get? res.2.1 = some fn2 ∧ fn2.name = nm ∧
         res.2.2.length = fn2.template_arguments.length ∧
         argTys.all Option.isSome = true)))
  pGF : ∀ nm argTys rt st r st2, get_function p fuel nm argTys rt st = some (r, st2) →
    AStep p st st2 ∧
    (∀ fid, r = some fid → argTys.all Option.isSome = true ∧
      (SInv st → ∃ fe, alookup st2.fnTable fid = some fe))
  pHE : ∀ vars tv e exp st r st2, handle_expression p fuel vars tv e exp st = some (r, st2) →
    AStep p st st2 ∧
    (wfProgramB p = true → SInv st → TyInv st → st2.errs = [] →
      ∀ e2, r = some e2 → exprTypedB e2 = true)
  pHCA : ∀ vars tv nm exp acc pending st r st2,
    handle_call_args p fuel vars tv nm exp acc pending st = some (r, st2) →
    AStep p st st2 ∧
    (wfProgramB p = true → SInv st → TyInv st → st2.errs = [] →
      (∀ a e3, a ∈ acc → a = some e3 → exprTypedB e3 = true) →
      ∀ e2, r = some e2 → exprTypedB e2 = true)
  pHS : ∀ vars tv s st r vars2 st2,
    handle_statement p fuel vars tv s st = some ((r, vars2), st2) →
    AStep p st st2 ∧
    (wfProgramB p = true → SInv st → TyInv st → st2.errs = [] →
      ∀ s3, r = some s3 → stmtTypedB s3 = true)
  pHSS : ∀ vars tv ss st stmts vars2 st2,
    handle_statements p fuel vars tv ss st = some ((stmts, vars2), st2) →
    AStep p st st2 ∧
    (wfProgramB p = true → SInv st → TyInv st → st2.errs = [] → stmtsTypedB stmts = true)
  pHB : ∀ vars tv ss st stmts st2, handle_block p fuel vars tv ss st = some (stmts, st2) →
    AStep p st st2 ∧
    (wfProgramB p = true → SInv st → TyInv st → st2.errs = [] → stmtsTypedB stmts = true)

theorem alookup_mem {α β : Type} [DecidableEq α] {l : List (α × β)} {k : α} {v : β}
    (h : alookup l k = some v) : (k, v) ∈ l := by
  induction l with
  | nil => simp [alookup] at h
  | cons a r ih =>
    obtain ⟨ka, va⟩ := a
    simp only [alookup] at h
    split at h
    · rename_i hk
      cases h
      subst hk
      exact List.mem_cons_self _ _
    · exact List.mem_cons_of_mem _ (ih h)

theorem alookup_ainsert_mono {α β : Type} [DecidableEq α] {l : List (α × β)} {k2 : α} {v2 : β}
    (k : α) (v : β) (h : alookup l k2 = some v2) : alookup (ainsert k v l) k2 = some v2 := by
  unfold ainsert
  split
  · exact h
  · rename_i hnone
    simp only [alookup]
    split
    · rename_i hk
      subst hk
      rw [h] at hnone
      cases hnone
    · exact h

theorem alookup_ainsert_self {α β : Type} [DecidableEq α] {l : List (α × β)} {k : α} (v : β)
    (h : alookup l k = none) : alookup (ainsert k v l) k = some v := by
  unfold ainsert
  rw [h]
  simp [alookup]

theorem all_of_alookup {α β : Type} [DecidableEq α] {l : List (α × β)} {k : α} {v : β}
    {f : α × β → Bool} (hall : l.all f = true) (h : alookup l k = some v) : f (k, v) = true := by
  rw [List.all_eq_true] at hall
  exact hall _ (alookup_mem h)

theorem AStep.rfl {p : SProgram} (st : St) : AStep p st st where
  smemoLe := fun _ _ h => h
  fmemoLe := fun _ _ h => h
  fnTableLe := fun _ _ h => h
  errsExt := ⟨[], (List.nil_append _).symm⟩
  nextIdLe := le_refl _
  freshTypes := fun _ h1 h2 => absurd h1 h2
  freshFns := fun _ h1 h2 => absurd h1 h2
  invPres := id
  tyPres := fun _ _ => id

theorem AStep.trans {p : SProgram} {st1 st2 st3 : St}
    (a : AStep p st1 st2) (b : AStep p st2 st3) : AStep p st1 st3 where
  smemoLe := fun k v h => b.smemoLe k v (a.smemoLe k v h)
  fmemoLe := fun k v h => b.fmemoLe k v (a.fmemoLe k v h)
  fnTableLe := fun k v h => b.fnTableLe k v (a.fnTableLe k v h)
  errsExt := by
    obtain ⟨d1, h1⟩ := a.errsExt
    obtain ⟨d2, h2⟩ := b.errsExt
    exact ⟨d2 ++ d1, by rw [h2, h1, List.append_assoc]⟩
  nextIdLe := le_trans a.nextIdLe b.nextIdLe
  freshTypes := by
    intro i h3 h1
    by_cases h2 : i ∈ st2.types
    · exact a.freshTypes i h2 h1
    · exact lt_of_le_of_lt a.nextIdLe (b.freshTypes i h3 h2)
  freshFns := by
    intro i h3 h1
    by_cases h2 : i ∈ st2.fnInsts
    · exact a.freshFns i h2 h1
    · exact lt_of_le_of_lt a.nextIdLe (b.freshFns i h3 h2)
  invPres := fun h => b.invPres (a.invPres h)
  tyPres := fun hw hi h => b.tyPres hw (a.invPres hi) (a.tyPres hw hi h)

theorem errs_nil_of_ext {st st2 : St} (h : ∃ d, st2.errs = d ++ st.errs)
    (h2 : st2.errs = []) : st.errs = [] := by
  obtain ⟨d, hd⟩ := h
  rw [h2] at hd
  exact (List.append_eq_nil.mp hd.symm).2

theorem push_err_step {p : SProgram} (e : Err) (st : St) : AStep p st (push_err e st) where
  smemoLe := fun _ _ h => h
  fmemoLe := fun _ _ h => h
  fnTableLe := fun _ _ h => h
  errsExt := ⟨[e], rfl⟩
  nextIdLe := le_refl _
  freshTypes := fun _ h1 h2 => absurd h1 h2
  freshFns := fun _ h1 h2 => absurd h1 h2
  invPres := fun h => ⟨h.typesPos, h.typesLe, h.fnsPos, h.fnsLe, h.typesNodup, h.fnsNodup, h.disj, h.memoFn⟩
  tyPres := by
    intro _ _ _ h
    simp [push_err] at h

theorem add_type_step {p : SProgram} (st : St) (tn : TypeNode) (vt it : Option Nat) :
    AStep p st { st with nextId := st.nextId + 1, voidType := vt, intType := it,
                         types := st.types ++ [st.nextId + 1],
                         typeTable := ainsert (st.nextId + 1) tn st.typeTable } := by
  refine ⟨fun _ _ h => h, fun _ _ h => h, fun _ _ h => h, ⟨[], (List.nil_append _).symm⟩,
    Nat.le_succ _, ?_, ?_, ?_, ?_⟩
  · intro i h1 h2
    dsimp only at h1
    simp only [List.mem_append, List.mem_singleton] at h1
    rcases h1 with h1 | h1
    · exact absurd h1 h2
    · omega
  · intro i h1 h2
    exact absurd h1 h2
  · intro h
    refine ⟨?_, ?_, fun i hi => h.fnsPos i hi, fun i hi => le_trans (h.fnsLe i hi) (Nat.le_succ _), ?_, h.fnsNodup, ?_, h.memoFn⟩
    · intro i hi
      dsimp only at hi
      simp only [List.mem_append, List.mem_singleton] at hi
      rcases hi with hi | hi
      · exact h.typesPos i hi
      · omega
    · intro i hi
      dsimp only at hi ⊢
      simp only [List.mem_append, List.mem_singleton] at hi
      rcases hi with hi | hi
      · exact le_trans (h.typesLe i hi) (Nat.le_succ _)
      · omega
    · dsimp only
      rw [List.nodup_append]
      refine ⟨h.typesNodup, List.nodup_singleton _, ?_⟩
      intro a ha hb
      simp only [List.mem_singleton] at hb
      subst hb
      have := h.typesLe _ ha
      omega
    · intro i hi
      dsimp only at hi ⊢
      simp only [List.mem_append, List.mem_singleton] at hi
      rcases hi with hi | hi
      · exact h.disj i hi
      · subst hi
        intro hmem
        have := h.fnsLe _ hmem
        omega
  · intro _ _ hty he
    exact hty he

theorem get_void_type_step {p : SProgram} (st : St) : AStep p st (get_void_type st).2 := by
  unfold get_void_type
  split
  · exact AStep.rfl st
  · exact add_type_step st TypeNode.voidT (some (st.nextId + 1)) st.intType

theorem get_int_type_step {p : SProgram} (st : St) : AStep p st (get_int_type st).2 := by
  unfold get_int_type
  split
  · exact AStep.rfl st
  · exact add_type_step st TypeNode.intT st.voidType (some (st.nextId + 1))

theorem get_name_step {p : SProgram} (e : SExpr) (st : St) : AStep p st (get_name e st).2 := by
  unfold get_name
  match e with
  | .intLit _ => exact push_err_step _ st
  | .name _ => exact AStep.rfl st
  | .binary _ _ _ => exact push_err_step _ st
  | .assign _ _ => exact push_err_step _ st
  | .call _ _ => exact push_err_step _ st
  | .member _ _ => exact push_err_step _ st

theorem get_member_type_step {p : SProgram} (t : Option Nat) (n : String) (st : St) :
    AStep p st (get_member_type t n st).2 := by
  unfold get_member_type
  split
  · exact AStep.rfl st
  · split
    · split
      · exact AStep.rfl st
      · exact push_err_step _ st
    · exact push_err_step _ st


theorem handle_call_args_none (p : SProgram) : ∀ (fuel : Nat) (vars : Scope) (tv : Frame)
    (exp : Option Nat) (acc : List (Option IExpr)) (pending : List SExpr) (st : St)
    (r : Option IExpr) (st2 : St),
    handle_call_args p fuel vars tv none exp acc pending st = some (r, st2) → r = none := by
  intro fuel
  induction fuel with
  | zero =>
    intro vars tv exp acc pending st r st2 h
    rw [handle_call_args.eq_def] at h
    dsimp only at h
    cases h
  | succ f ih =>
    intro vars tv exp acc pending st r st2 h
    rw [handle_call_args.eq_def] at h
    dsimp only at h
    match pending with
    | [] =>
      dsimp only at h
      match f, h with
      | 0, h =>
        rw [get_function.eq_def] at h
        dsimp only at h
        cases h
      | g + 1, h =>
        rw [get_function.eq_def] at h
        dsimp only at h
        cases h
        rfl
    | a :: rest =>
      dsimp only at h
      match h2 : handle_expression p f vars tv a none st with
      | none => rw [h2] at h; cases h
      | some (ae, st1) =>
        rw [h2] at h
        exact ih vars tv exp (acc ++ [ae]) rest st1 r st2 h

theorem instantiate_function_memo_hit (p : SProgram) (fuel : Nat) (fIdx : Nat)
    (targs : List Nat) (st : St) (fid : Nat) (fn : SFunction)
    (hget : p.functions.get? fIdx = some fn)
    (harity : targs.length = fn.template_arguments.length)
    (hmemo : alookup st.fmemo (fIdx, targs) = some fid) :
    instantiate_function p fuel fIdx targs st = some (some fid, st) := by
  rw [instantiate_function, hget]
  simp [harity, hmemo]

theorem instantiate_structure_memo_hit (p : SProgram) (fuel : Nat) (sIdx : Nat)
    (targs : List Nat) (st : St) (tid : Nat) (sd : SStructure)
    (hget : p.structures.get? sIdx = some sd)
    (harity : targs.length = sd.template_arguments.length)
    (hmemo : alookup st.smemo (sIdx, targs) = some tid) :
    instantiate_structure p fuel sIdx targs st = some (some tid, st) := by
  rw [instantiate_structure, hget]
  simp [harity, hmemo]

/-- Claim C4: the compiler entry point of src/main.cpp.  On an input that
parses, the process prints the single line success and exits 0 -- but no C
file is written on any path: main never invokes pass1 or codegen_c, so the
part of the claim asserting that a C file is written adjacent to the input is
contradicted by the code. -/
theorem claim_C4 :
    main_model 2 .psuccess =
      { exitCode := 0, stdoutLines := ["success"], errorPrinted := false, filesWritten := [] } ∧
    (∀ argc o, (main_model argc o).filesWritten = []) := by
  constructor
  · rfl
  · intro argc o
    unfold main_model
    split
    · rfl
    · cases o <;> rfl

/-- Claim C9: the expression parser honours the stated precedence and
associativity levels (multiplicative over additive over comparison over
equality over right-to-left assignment, with left-to-right grouping inside a
level); in particular 1 + 2 * 3 parses as ADD(IntLiteral 1, MUL(IntLiteral 2,
IntLiteral 3)). -/
theorem claim_C9 :
    parse_expression "1 + 2 * 3" = .ok (.binary .add (.intLit 1) (.binary .mul (.intLit 2) (.intLit 3))) [] ∧
    parse_expression "2 * 3 + 1" = .ok (.binary .add (.binary .mul (.intLit 2) (.intLit 3)) (.intLit 1)) [] ∧
    parse_expression "1 - 2 - 3" = .ok (.binary .sub (.binary .sub (.intLit 1) (.intLit 2)) (.intLit 3)) [] ∧
    parse_expression "10 / 5 / 2" = .ok (.binary .div (.binary .div (.intLit 10) (.intLit 5)) (.intLit 2)) [] ∧
    parse_expression "1 < 2 + 3" = .ok (.binary .lt (.intLit 1) (.binary .add (.intLit 2) (.intLit 3))) [] ∧
    parse_expression "1 == 2 < 3" = .ok (.binary .eq (.intLit 1) (.binary .lt (.intLit 2) (.intLit 3))) [] ∧
    parse_expression "a = 1 < 2" = .ok (.assign (.name "a") (.binary .lt (.intLit 1) (.intLit 2))) [] ∧
    parse_expression "a = b = 1" = .ok (.assign (.name "a") (.assign (.name "b") (.intLit 1))) [] ∧
    parse_expression "8 - 6 % 4" = .ok (.binary .sub (.intLit 8) (.binary .rem (.intLit 6) (.intLit 4))) [] := by
  refine ⟨?_, ?_, ?_, ?_, ?_, ?_, ?_, ?_, ?_⟩ <;> rfl


/-- Claim C5 counterexample: progOrder is accepted (no diagnostics), yet the
program function-instantiation list is [3, 2]: main is demanded first and
gets the smaller id, but f completes first and is appended first, so the list
is neither in demand order nor in ascending id order. -/
theorem claim_C5_counterexample :
    (pass1_run progOrder 15).map (fun st => (st.errs, st.fnInsts, ascendingB st.fnInsts)) =
      some ([], [3, 2], false) := by
  simp [pass1_run, get_void_type, get_int_type, get_function, get_function_loop, unify_run,
    unify_match, unify_match_list, all_some, instantiate_function, instantiate_function_args,
    instantiate_structure, instantiate_structure_members, get_type, handle_type, handle_type_list,
    handle_expression, handle_call_args, handle_statement, handle_statements, handle_block,
    get_name, get_member_type, find_structure, alookup, ainsert, frame_insert, scope_insert,
    scope_lookup, build_tv, push_err, St0, is_variable, set_variable, progOrder, IExpr.tyOf,
    ascendingB]

/-- Claim C6 counterexample: progOrder is accepted, yet the program type list
is [1, 5, 4]: the Int builtin is created while the members of struct S are
being resolved, after S already drew its id, and S is appended after Int, so
the type list is not in ascending id order. -/
theorem claim_C6_counterexample :
    (pass1_run progOrder 15).map (fun st => (st.errs, st.types, ascendingB st.types)) =
      some ([], [1, 5, 4], false) := by
  simp [pass1_run, get_void_type, get_int_type, get_function, get_function_loop, unify_run,
    unify_match, unify_match_list, all_some, instantiate_function, instantiate_function_args,
    instantiate_structure, instantiate_structure_members, get_type, handle_type, handle_type_list,
    handle_expression, handle_call_args, handle_statement, handle_statements, handle_block,
    get_name, get_member_type, find_structure, alookup, ainsert, frame_insert, scope_insert,
    scope_lookup, build_tv, push_err, St0, is_variable, set_variable, progOrder, IExpr.tyOf,
    ascendingB]

/-- Claim C7 counterexample: in progC7 the only failing subexpression is the
undefined variable y inside the call f(y), yet the analyzer records two
diagnostics: the undefined-variable error for y and then an additional
no-matching-function error for the call, because the call still runs overload
resolution with the null-typed argument. -/
theorem claim_C7_counterexample :
    (pass1_run progC7 13).map (fun st => st.errs) =
      some [.noMatchingFunction "f", .undefinedVariable "y"] := by
  simp [pass1_run, get_void_type, get_int_type, get_function, get_function_loop, unify_run,
    unify_match, unify_match_list, all_some, instantiate_function, instantiate_function_args,
    instantiate_structure, instantiate_structure_members, get_type, handle_type, handle_type_list,
    handle_expression, handle_call_args, handle_statement, handle_statements, handle_block,
    get_name, get_member_type, find_structure, alookup, ainsert, frame_insert, scope_insert,
    scope_lookup, build_tv, push_err, St0, is_variable, set_variable, progC7, IExpr.tyOf]

/-- Claim C2 (amended): a demand for a function template and type-argument
tuple that is already memoized returns the memoized instantiation at once, in
particular without consuming any fuel, so a recursive demand arising inside
the body for the same tuple does not recurse; and the directly recursive
program progRec is analyzed successfully.  (Analysis does not terminate on
every program: see the counterexample for this claim.) -/
theorem claim_C2 :
    (∀ (p : SProgram) (fuel fIdx : Nat) (targs : List Nat) (st : St) (fid : Nat) (fn : SFunction),
        p.functions.get? fIdx = some fn →
        targs.length = fn.template_arguments.length →
        alookup st.fmemo (fIdx, targs) = some fid →
        instantiate_function p fuel fIdx targs st = some (some fid, st)) ∧
    (pass1_run progRec 18).isSome = true := by
  constructor
  · intro p fuel fIdx targs st fid fn hget harity hmemo
    exact instantiate_function_memo_hit p fuel fIdx targs st fid fn hget harity hmemo
  · simp [pass1_run, get_void_type, get_int_type, get_function, get_function_loop, unify_run,
      unify_match, unify_match_list, all_some, instantiate_function, instantiate_function_args,
      instantiate_structure, instantiate_structure_members, get_type, handle_type, handle_type_list,
      handle_expression, handle_call_args, handle_statement, handle_statements, handle_block,
      get_name, get_member_type, find_structure, alookup, ainsert, frame_insert, scope_insert,
      scope_lookup, build_tv, push_err, St0, is_variable, set_variable, progRec, IExpr.tyOf]

/-- Claim C2 witness: the memoized-demand part of the amended claim applied at
a concrete state whose memo already holds an instantiation of f with the
empty tuple, and the recursion example. -/
theorem claim_C2_witness :
    instantiate_function progRec 0 0 []
      { St0 with fmemo := [((0, []), 7)] } = some (some 7, { St0 with fmemo := [((0, []), 7)] }) :=
  claim_C2.1 progRec 0 0 [] { St0 with fmemo := [((0, []), 7)] } 7
    { name := "f", template_arguments := [], arguments := [],
      return_type := .name "Void", block := [ .exprS (.call (.name "f") []) ] }
    (by rfl) (by rfl) (by rfl)


theorem handle_type_list_nil_succ (p : SProgram) (f : Nat) (tv : Frame) (st : St) :
    handle_type_list p (f + 1) tv [] st = some ([], st) := rfl

theorem handle_type_list_cons_succ (p : SProgram) (f : Nat) (tv : Frame) (e : SExpr)
    (rest : List SExpr) (st : St) :
    handle_type_list p (f + 1) tv (e :: rest) st =
      match handle_type p f tv e st with
      | none => none
      | some (t, st1) =>
        match handle_type_list p f tv rest st1 with
        | none => none
        | some (ts, st2) => some (t :: ts, st2) := rfl

theorem handle_type_call_succ (p : SProgram) (f : Nat) (tv : Frame) (callee : SExpr)
    (args : List SExpr) (st : St) :
    handle_type p (f + 1) tv (.call callee args) st =
      match get_name callee st with
      | (n, st1) =>
        match handle_type_list p f tv args st1 with
        | none => none
        | some (ts, st2) => get_type p f n ts st2 := rfl

theorem ism_cons_succ (p : SProgram) (f : Nat) (tv : Frame) (n : String) (te : SExpr)
    (rest : List (String × SExpr)) (st : St) :
    instantiate_structure_members p (f + 1) tv ((n, te) :: rest) st =
      match handle_type p f tv te st with
      | none => none
      | some (t, st1) =>
        match instantiate_structure_members p f tv rest st1 with
        | none => none
        | some (ms2, st2) => some ((n, t) :: ms2, st2) := rfl

theorem smemo_lookup_none_of_bound (l : List ((Nat × List Nat) × Nat)) (m j s0 : Nat)
    (hb : ∀ k v, (k, v) ∈ l → ∀ i ∈ k.2, i ≤ m) (hj : m < j) :
    alookup l (s0, [j]) = none := by
  induction l with
  | nil => rfl
  | cons a r ih =>
    obtain ⟨⟨k1, k2⟩, v⟩ := a
    simp only [alookup]
    split
    · rename_i he
      exfalso
      have h2 : j ∈ k2 := by
        have : k2 = [j] := (Prod.mk.injEq _ _ _ _ ▸ he).2
        rw [this]
        exact List.mem_singleton.mpr rfl
      have := hb (k1, k2) v (List.mem_cons_self _ _) j h2
      omega
    · exact ih (fun k v h => hb k v (List.mem_cons_of_mem _ h))

theorem div_step (n : Nat) (st : St) (τ : Nat)
    (hmemo : alookup st.smemo (0, [τ]) = none) :
    instantiate_structure progDiv n 0 [τ] st =
      (match n with
       | 0 => none
       | f + 1 =>
         let tid := st.nextId + 1
         let st1 : St := { st with nextId := tid,
                                   typeTable := ainsert tid (TypeNode.structT 0 [τ]) st.typeTable,
                                   smemo := ainsert (0, [τ]) tid st.smemo }
         match instantiate_structure_members progDiv f [("T", τ)]
                 [("a", .call (.name "S") [.call (.name "S") [.name "T"]])] st1 with
         | none => none
         | some (ms, st2) =>
           some (some tid, { st2 with memberTable := ainsert tid ms st2.memberTable,
                                      types := st2.types ++ [tid] })) := by
  rw [instantiate_structure.eq_def]
  simp only [progDiv]
  rw [hmemo]
  rfl

theorem div_inner (h : Nat) (τ tid : Nat) (st1 : St)
    (hself : alookup st1.smemo (0, [τ]) = some tid) :
    handle_type progDiv (h + 3) [("T", τ)] (.call (.name "S") [.name "T"]) st1
      = some (some tid, st1) := by
  have hinst : instantiate_structure progDiv (h + 1) 0 [τ] st1 = some (some tid, st1) :=
    instantiate_structure_memo_hit progDiv (h + 1) 0 [τ] st1 tid
      { name := "S", template_arguments := ["T"],
        members := [("a", .call (.name "S") [.call (.name "S") [.name "T"]])] }
      rfl rfl hself
  calc handle_type progDiv (h + 3) [("T", τ)] (.call (.name "S") [.name "T"]) st1
      = instantiate_structure progDiv (h + 1) 0 [τ] st1 := by rfl
    _ = some (some tid, st1) := hinst

theorem div_members (h : Nat) (τ tid : Nat) (st1 : St)
    (hself : alookup st1.smemo (0, [τ]) = some tid)
    (hnone : instantiate_structure progDiv (h + 3) 0 [tid] st1 = none) :
    instantiate_structure_members progDiv (h + 6) [("T", τ)]
      [("a", .call (.name "S") [.call (.name "S") [.name "T"]])] st1 = none := by
  have e1 := div_inner h τ tid st1 hself
  have e2 : handle_type_list progDiv (h + 4) [("T", τ)] [.call (.name "S") [.name "T"]] st1
      = some ([some tid], st1) := by
    rw [handle_type_list_cons_succ, e1]
    rfl
  have e3 : handle_type progDiv (h + 5) [("T", τ)]
      (.call (.name "S") [.call (.name "S") [.name "T"]]) st1
      = instantiate_structure progDiv (h + 3) 0 [tid] st1 := by
    rw [handle_type_call_succ]
    dsimp only [get_name]
    rw [e2]
    rfl
  rw [ism_cons_succ, e3, hnone]

theorem div_aux : ∀ (n : Nat) (st : St) (τ : Nat),
    alookup st.smemo (0, [τ]) = none →
    (∀ k v, (k, v) ∈ st.smemo → ∀ i ∈ k.2, i ≤ st.nextId) →
    τ ≤ st.nextId →
    instantiate_structure progDiv n 0 [τ] st = none := by
  intro n
  induction n using Nat.strong_induction_on with
  | _ n IH =>
    intro st τ hmemo hb hτ
    rw [div_step n st τ hmemo]
    match n with
    | 0 => rfl
    | 1 => rfl
    | 2 => rfl
    | 3 => rfl
    | 4 => rfl
    | 5 => rfl
    | 6 => rfl
    | e + 7 =>
      dsimp only
      have hceq : ainsert ((0 : Nat), [τ]) (st.nextId + 1) st.smemo
          = ((0, [τ]), st.nextId + 1) :: st.smemo := by
        unfold ainsert
        rw [hmemo]
      have hself : alookup (ainsert ((0 : Nat), [τ]) (st.nextId + 1) st.smemo) (0, [τ])
          = some (st.nextId + 1) := alookup_ainsert_self _ hmemo
      have hb2 : ∀ k v, (k, v) ∈ ainsert ((0 : Nat), [τ]) (st.nextId + 1) st.smemo →
          ∀ i ∈ k.2, i ≤ st.nextId := by
        rw [hceq]
        intro k v hm i hi
        rcases List.mem_cons.mp hm with he | ht
        · cases he
          simp only [List.mem_singleton] at hi
          omega
        · exact hb k v ht i hi
      have hnone : instantiate_structure progDiv (e + 3) 0 [st.nextId + 1]
          { st with nextId := st.nextId + 1,
                    typeTable := ainsert (st.nextId + 1) (TypeNode.structT 0 [τ]) st.typeTable,
                    smemo := ainsert (0, [τ]) (st.nextId + 1) st.smemo } = none := by
        apply IH (e + 3) (by omega)
        · exact smemo_lookup_none_of_bound _ st.nextId _ _ hb2 (by omega)
        · dsimp only
          intro k v hm i hi
          exact le_trans (hb2 k v hm i hi) (Nat.le_succ _)
        · exact le_refl _
      rw [div_members e τ (st.nextId + 1) _ hself hnone]


theorem handle_statement_let_some_succ (p : SProgram) (f : Nat) (vars : Scope) (tv : Frame)
    (n : String) (te : SExpr) (init : SExpr) (st : St) :
    handle_statement p (f + 1) vars tv (.letS n (some te) init) st =
      match handle_type p f tv te st with
      | none => none
      | some (t0, st1) =>
        match handle_expression p f vars tv init t0 st1 with
        | none => none
        | some (e2, st2) =>
          let ty := match t0 with
            | some t => some t
            | none => e2.bind IExpr.tyOf
          let c1 : St × Bool :=
            match e2, ty with
            | some e3, some t =>
              if e3.tyOf ≠ some t then (push_err .typeMismatch st2, true) else (st2, false)
            | _, _ => (st2, false)
          let vars2 := scope_insert n ty vars
          if ty.isNone ∨ e2.isNone ∨ c1.2 then some ((none, vars2), c1.1)
          else
            match e2, ty with
            | some e3, some t => some ((some (.letS n t e3), vars2), c1.1)
            | _, _ => some ((none, vars2), c1.1) := rfl

theorem handle_statements_cons_succ (p : SProgram) (f : Nat) (vars : Scope) (tv : Frame)
    (s : SStmt) (rest : List SStmt) (st : St) :
    handle_statements p (f + 1) vars tv (s :: rest) st =
      match handle_statement p f vars tv s st with
      | none => none
      | some ((s2, vars1), st1) =>
        match handle_statements p f vars1 tv rest st1 with
        | none => none
        | some ((rest2, vars2), st2) =>
          match s2 with
          | none => some ((rest2, vars2), st2)
          | some s3 => some ((s3 :: rest2, vars2), st2) := rfl

theorem handle_block_succ (p : SProgram) (f : Nat) (vars : Scope) (tv : Frame)
    (ss : List SStmt) (st : St) :
    handle_block p (f + 1) vars tv ss st =
      match handle_statements p f ([] :: vars) tv ss st with
      | none => none
      | some ((stmts, _), st1) => some (stmts, st1) := rfl

theorem get_function_some_succ (p : SProgram) (f : Nat) (n : String)
    (argTys : List (Option Nat)) (rt : Option Nat) (st : St) :
    get_function p (f + 1) (some n) argTys rt st =
      match get_function_loop p f n argTys rt 0 p.functions 0 0 [] st with
      | none => none
      | some ((count, bestIdx, bestTargs), st1) =>
        if count = 1 then instantiate_function p f bestIdx bestTargs st1
        else if count = 0 then some (none, push_err (.noMatchingFunction n) st1)
        else some (none, push_err (.multipleMatchingFunctions count n) st1) := rfl

theorem pass1_run_div_none : ∀ n : Nat, pass1_run progDiv n = none := by
  intro n
  rcases Nat.lt_or_ge n 9 with h | h
  · interval_cases n <;> rfl
  · obtain ⟨m, rfl⟩ : ∃ m, n = m + 9 := ⟨n - 9, by omega⟩
    have q1 : handle_type progDiv (m + 4) [] (.call (.name "S") [.name "Int"]) stDiv4 =
        instantiate_structure progDiv (m + 2) 0 [3] stDivI := rfl
    have hdiv : instantiate_structure progDiv (m + 2) 0 [3] stDivI = none := by
      apply div_aux (m + 2) stDivI 3 rfl
      · intro k v hm
        cases hm
      · exact le_refl _
    have q2 : handle_statement progDiv (m + 5) [[], []] []
        (.letS "y" (some (.call (.name "S") [.name "Int"])) (.intLit 0)) stDiv4 = none := by
      rw [handle_statement_let_some_succ, q1, hdiv]
    have q3 : handle_statements progDiv (m + 6) [[], []] []
        [.letS "y" (some (.call (.name "S") [.name "Int"])) (.intLit 0)] stDiv4 = none := by
      rw [handle_statements_cons_succ, q2]
    have q4 : handle_block progDiv (m + 7) [[]] []
        [.letS "y" (some (.call (.name "S") [.name "Int"])) (.intLit 0)] stDiv4 = none := by
      rw [handle_block_succ, q3]
    have q5a : instantiate_function progDiv (m + 8) 0 [] stDivV =
        match handle_block progDiv (m + 7) [[]] []
            [.letS "y" (some (.call (.name "S") [.name "Int"])) (.intLit 0)] stDiv4 with
        | none => none
        | some (stmts, st5) =>
          some (some 2, { st5 with fnBlocks := ainsert 2 stmts st5.fnBlocks,
                                   fnInsts := st5.fnInsts ++ [2] }) := rfl
    have q5 : instantiate_function progDiv (m + 8) 0 [] stDivV = none := by
      rw [q5a, q4]
    have qloop : get_function_loop progDiv (m + 8) "main" [] (some 1) 0 progDiv.functions
        0 0 [] stDivV = some ((1, 0, []), stDivV) := rfl
    have q6 : get_function progDiv (m + 9) (some "main") [] (some 1) stDivV = none := by
      rw [get_function_some_succ, qloop]
      dsimp only
      rw [q5]
      rfl
    show pass1_run progDiv (m + 9) = none
    unfold pass1_run
    rw [show get_void_type St0 = (1, stDivV) from rfl]
    dsimp only
    rw [q6]

/-- Claim C2 counterexample: semantic analysis does not terminate on every
input program.  On progDiv (a polymorphically recursive structure whose
member type demands a strictly larger instantiation of the same template)
the analyzer runs out of any amount of fuel: no fuel bound makes pass1
return, which is the fuel-based rendering of divergence. -/
theorem claim_C2_counterexample : ¬ pass1_terminates progDiv := by
  rintro ⟨n, hn⟩
  rw [pass1_run_div_none n] at hn
  cases hn

theorem mem_of_get2 {α : Type} : ∀ {l : List α} {n : Nat} {a : α}, l.get? n = some a → a ∈ l := by
  intro l
  induction l with
  | nil => intro n a h; cases h
  | cons x r ih =>
    intro n a h
    match n, h with
    | 0, h => cases h; exact List.mem_cons_self _ _
    | m + 1, h => exact List.mem_cons_of_mem _ (ih h)

theorem wf_return_type {p : SProgram} (hw : wfProgramB p = true) {fIdx : Nat} {fn : SFunction}
    (hget : p.functions.get? fIdx = some fn) : wfTypeExprB fn.return_type = true := by
  unfold wfProgramB at hw
  rw [List.all_eq_true] at hw
  exact hw fn (mem_of_get2 hget)

theorem all_some_length {l : List (Option Nat)} : ∀ {ids : List Nat},
    all_some l = some ids → ids.length = l.length := by
  induction l with
  | nil => intro ids h; cases h; rfl
  | cons a r ih =>
    intro ids h
    match a, h with
    | some v, h =>
      rw [all_some] at h
      match h1 : all_some r with
      | none => rw [h1] at h; cases h
      | some l2 =>
        rw [h1] at h
        cases h
        simp [ih h1]

theorem all_some_all {l : List (Option Nat)} : ∀ {ids : List Nat},
    all_some l = some ids → l.all Option.isSome = true := by
  induction l with
  | nil => intro ids _; rfl
  | cons a r ih =>
    intro ids h
    match a, h with
    | some v, h =>
      rw [all_some] at h
      match h1 : all_some r with
      | none => rw [h1] at h; cases h
      | some l2 =>
        simp only [List.all_cons, Option.isSome_some, Bool.true_and]
        exact ih h1

theorem all_some_of_all : ∀ {l : List (Option Nat)},
    l.all Option.isSome = true → ∃ ids, all_some l = some ids := by
  intro l
  induction l with
  | nil => intro _; exact ⟨[], rfl⟩
  | cons a r ih =>
    intro h
    simp only [List.all_cons, Bool.and_eq_true] at h
    match a, h.1 with
    | some v, _ =>
      obtain ⟨ids, hids⟩ := ih h.2
      exact ⟨v :: ids, by rw [all_some, hids]; rfl⟩

theorem set_variable_length : ∀ (tns : List String) (name : String) (t : Nat)
    (slots : List (Option Nat)), (set_variable tns name t slots).2.length = slots.length
  | [], _, _, [] => rfl
  | [], _, _, (_ :: _) => rfl
  | (_ :: _), _, _, [] => rfl
  | (tn :: tns), name, t, (s :: ss) => by
    rw [set_variable.eq_def]
    dsimp only
    split
    · split <;> rfl
    · simpa using set_variable_length tns name t ss

theorem get_name_cases (e : SExpr) (st : St) :
    (∃ s2, e = .name s2 ∧ get_name e st = (some s2, st)) ∨
    get_name e st = (none, push_err .expectedName st) := by
  match e with
  | .name s2 => exact Or.inl ⟨s2, rfl, rfl⟩
  | .intLit _ => exact Or.inr rfl
  | .binary _ _ _ => exact Or.inr rfl
  | .assign _ _ => exact Or.inr rfl
  | .call _ _ => exact Or.inr rfl
  | .member _ _ => exact Or.inr rfl

theorem alookup_ainsert_isSome {α β : Type} [DecidableEq α] (l : List (α × β)) (k : α) (v : β) :
    (alookup (ainsert k v l) k).isSome = true := by
  match h : alookup l k with
  | some w => unfold ainsert; rw [h]; simp [h]
  | none => unfold ainsert; rw [h]; simp [alookup]

theorem get_void_type_fmemo (st : St) : (get_void_type st).2.fmemo = st.fmemo := by
  unfold get_void_type
  split <;> rfl

theorem get_int_type_fmemo (st : St) : (get_int_type st).2.fmemo = st.fmemo := by
  unfold get_int_type
  split <;> rfl

theorem find_structure_spec (name : String) : ∀ (l : List SStructure) (i c : Nat)
    (best : Option (Nat × SStructure)),
    ((find_structure name l i c best).1 = c ∧ (find_structure name l i c best).2 = best) ∨
    (c < (find_structure name l i c best).1 ∧
      ∃ j s, (find_structure name l i c best).2 = some (j, s) ∧
        l.get? (j - i) = some s ∧ i ≤ j ∧ s.name = name) := by
  intro l
  induction l with
  | nil => intro i c best; exact Or.inl ⟨rfl, rfl⟩
  | cons s r ih =>
    intro i c best
    rw [find_structure]
    split
    · rename_i hname
      rcases ih (i + 1) (c + 1) (some (i, s)) with ⟨h1, h2⟩ | ⟨h1, j, s2, h2, h3, h4, h5⟩
      · refine Or.inr ⟨by omega, i, s, h2, ?_, le_refl i, hname⟩
        simp
      · refine Or.inr ⟨by omega, j, s2, h2, ?_, by omega, h5⟩
        have hj : j - i = (j - (i + 1)) + 1 := by omega
        rw [hj]
        simpa using h3
    · rcases ih (i + 1) c best with ⟨h1, h2⟩ | ⟨h1, j, s2, h2, h3, h4, h5⟩
      · exact Or.inl ⟨h1, h2⟩
      · refine Or.inr ⟨h1, j, s2, h2, ?_, by omega, h5⟩
        have hj : j - i = (j - (i + 1)) + 1 := by omega
        rw [hj]
        simpa using h3

theorem megaP_zero (p : SProgram) : MegaP p 0 := by
  refine ⟨?_, ?_, ?_, ?_, ?_, ?_, ?_, ?_, ?_, ?_, ?_, ?_, ?_, ?_, ?_, ?_, ?_⟩
  · intro sIdx targs st r st2 h
    rw [instantiate_structure.eq_def] at h
    split at h
    · cases h
      refine ⟨AStep.rfl st, fun tid htid => Option.noConfusion htid, ?_, rfl⟩
      intro sd hget harity
      rename_i hnone
      rw [hnone] at hget
      cases hget
    · split at h
      · cases h
        refine ⟨AStep.rfl st, fun tid htid => Option.noConfusion htid, ?_, rfl⟩
        intro sd hget harity
        rename_i hget2 hlen
        rw [hget2] at hget
        cases hget
        exact absurd harity hlen
      · split at h
        · cases h
          rename_i hget2 hlen htid
          exact ⟨AStep.rfl st, fun t ht => by cases ht; exact htid, fun sd _ _ => rfl, rfl⟩
        · nomatch h
  · intro tv ms st r st2 h
    nomatch h
  · intro fIdx targs st r st2 h
    rw [instantiate_function.eq_def] at h
    split at h
    · cases h
      refine ⟨AStep.rfl st, fun fid hfid => Option.noConfusion hfid, ?_⟩
      intro fn hget harity
      rename_i hnone
      rw [hnone] at hget
      cases hget
    · split at h
      · cases h
        refine ⟨AStep.rfl st, fun fid hfid => Option.noConfusion hfid, ?_⟩
        intro fn hget harity
        rename_i hget2 hlen
        rw [hget2] at hget
        cases hget
        exact absurd harity hlen
      · split at h
        · cases h
          rename_i hget2 hlen hfid
          refine ⟨AStep.rfl st, ?_, fun fn _ _ => rfl⟩
          intro fid2 hf
          cases hf
          exact ⟨hfid, fun hinv => hinv.memoFn _ _ hfid⟩
        · nomatch h
  · intro tv args frame st iargs fr2 st2 h
    nomatch h
  · intro name args st r st2 h
    nomatch h
  · intro tv e st r st2 h
    nomatch h
  · intro tv es st r st2 h
    nomatch h
  · intro tnames pat actual slots st b slots2 st2 h
    nomatch h
  · intro tnames pats actuals slots st b slots2 st2 h
    nomatch h
  · intro fn argTys rt st r st2 h
    nomatch h
  · intro nm argTys rt idx fns count bi bt st res st2 h
    nomatch h
  · intro nm argTys rt st r st2 h
    nomatch h
  · intro vars tv e exp st r st2 h
    nomatch h
  · intro vars tv nm exp acc pending st r st2 h
    nomatch h
  · intro vars tv s st r vars2 st2 h
    nomatch h
  · intro vars tv ss st stmts vars2 st2 h
    nomatch h
  · intro vars tv ss st stmts st2 h
    nomatch h

theorem step_ISM (p : SProgram) (f : Nat) (ih : MegaP p f) :
    ∀ tv ms st r st2, instantiate_structure_members p (f + 1) tv ms st = some (r, st2) →
      AStep p st st2 ∧ st2.fmemo = st.fmemo := by
  intro tv ms st r st2 h
  match ms with
  | [] =>
    rw [show instantiate_structure_members p (f + 1) tv [] st = some ([], st) from rfl] at h
    cases h
    exact ⟨AStep.rfl st, rfl⟩
  | (n, te) :: rest =>
    rw [ism_cons_succ] at h
    match h1 : handle_type p f tv te st with
    | none => rw [h1] at h; cases h
    | some (t, st1) =>
      rw [h1] at h
      dsimp only at h
      match h2 : instantiate_structure_members p f tv rest st1 with
      | none => rw [h2] at h; cases h
      | some (ms2, st3) =>
        rw [h2] at h
        cases h
        obtain ⟨a1, -, e1⟩ := ih.pHT tv te st t st1 h1
        obtain ⟨a2, e2⟩ := ih.pISM tv rest st1 _ _ h2
        exact ⟨AStep.trans a1 a2, by rw [e2, e1]⟩

theorem ifa_cons_succ (p : SProgram) (f : Nat) (tv : Frame) (n : String) (te : SExpr)
    (rest : List (String × SExpr)) (frame : Frame) (st : St) :
    instantiate_function_args p (f + 1) tv ((n, te) :: rest) frame st =
      match handle_type p f tv te st with
      | none => none
      | some (t, st1) =>
        match instantiate_function_args p f tv rest (frame_insert n t frame) st1 with
        | none => none
        | some (rest2, fr2, st2) => some ((n, t) :: rest2, fr2, st2) := rfl

theorem step_IFA (p : SProgram) (f : Nat) (ih : MegaP p f) :
    ∀ tv args frame st iargs fr2 st2,
      instantiate_function_args p (f + 1) tv args frame st = some (iargs, fr2, st2) →
      AStep p st st2 ∧ st2.fmemo = st.fmemo := by
  intro tv args frame st iargs fr2 st2 h
  match args with
  | [] =>
    rw [show instantiate_function_args p (f + 1) tv [] frame st = some ([], frame, st) from rfl] at h
    cases h
    exact ⟨AStep.rfl st, rfl⟩
  | (n, te) :: rest =>
    rw [ifa_cons_succ] at h
    match h1 : handle_type p f tv te st with
    | none => rw [h1] at h; cases h
    | some (t, st1) =>
      rw [h1] at h
      dsimp only at h
      match h2 : instantiate_function_args p f tv rest (frame_insert n t frame) st1 with
      | none => rw [h2] at h; cases h
      | some (rest2, fr3, st3) =>
        rw [h2] at h
        cases h
        obtain ⟨a1, -, e1⟩ := ih.pHT tv te st t st1 h1
        obtain ⟨a2, e2⟩ := ih.pIFA tv rest (frame_insert n t frame) st1 _ _ _ h2
        exact ⟨AStep.trans a1 a2, by rw [e2, e1]⟩

theorem step_HTL (p : SProgram) (f : Nat) (ih : MegaP p f) :
    ∀ tv es st r st2, handle_type_list p (f + 1) tv es st = some (r, st2) →
      AStep p st st2 ∧
      (st2.errs = [] → wfTypeExprsB es = true → r.all Option.isSome = true) ∧
      st2.fmemo = st.fmemo := by
  intro tv es st r st2 h
  match es with
  | [] =>
    rw [handle_type_list_nil_succ] at h
    cases h
    exact ⟨AStep.rfl st, fun _ _ => rfl, rfl⟩
  | e :: rest =>
    rw [handle_type_list_cons_succ] at h
    match h1 : handle_type p f tv e st with
    | none => rw [h1] at h; cases h
    | some (t, st1) =>
      rw [h1] at h
      dsimp only at h
      match h2 : handle_type_list p f tv rest st1 with
      | none => rw [h2] at h; cases h
      | some (ts, st3) =>
        rw [h2] at h
        cases h
        obtain ⟨a1, ty1, e1⟩ := ih.pHT tv e st t st1 h1
        obtain ⟨a2, ty2, e2⟩ := ih.pHTL tv rest st1 _ _ h2
        refine ⟨AStep.trans a1 a2, ?_, by rw [e2, e1]⟩
        intro herrs hwf
        simp only [wfTypeExprsB, Bool.and_eq_true] at hwf
        have h1e : st1.errs = [] := errs_nil_of_ext a2.errsExt herrs
        simp only [List.all_cons, Bool.and_eq_true]
        exact ⟨ty1 h1e hwf.1, ty2 herrs hwf.2⟩

theorem step_GT (p : SProgram) (f : Nat) (ih : MegaP p f) :
    ∀ name args st r st2, get_type p (f + 1) name args st = some (r, st2) →
      AStep p st st2 ∧
      (st2.errs = [] → ∀ n2, name = some n2 → args.all Option.isSome = true →
        r.isSome = true) ∧
      st2.fmemo = st.fmemo := by
  intro name args st r st2 h
  rw [get_type.eq_def] at h
  dsimp only at h
  match name with
  | none =>
    cases h
    exact ⟨AStep.rfl st, fun _ n2 hn _ => Option.noConfusion hn, rfl⟩
  | some n =>
    match h1 : all_some args with
    | none =>
      rw [h1] at h
      dsimp only at h
      cases h
      refine ⟨AStep.rfl st, ?_, rfl⟩
      intro _ n2 _ hall
      obtain ⟨ids, hid⟩ := all_some_of_all hall
      rw [hid] at h1
      cases h1
    | some argIds =>
      rw [h1] at h
      dsimp only at h
      by_cases hv : n = "Void" ∧ argIds.isEmpty
      · rw [if_pos hv] at h
        cases h
        exact ⟨get_void_type_step st, fun _ _ _ _ => rfl, get_void_type_fmemo st⟩
      · rw [if_neg hv] at h
        by_cases hi : n = "Int" ∧ argIds.isEmpty
        · rw [if_pos hi] at h
          cases h
          exact ⟨get_int_type_step st, fun _ _ _ _ => rfl, get_int_type_fmemo st⟩
        · rw [if_neg hi] at h
          match hfs : find_structure n p.structures 0 0 none with
          | (c, best) =>
            rw [hfs] at h
            dsimp only at h
            by_cases hc0 : c = 0
            · rw [if_pos hc0] at h
              cases h
              refine ⟨push_err_step _ st, ?_, rfl⟩
              intro herrs
              simp [push_err] at herrs
            · rw [if_neg hc0] at h
              by_cases hc1 : c = 1
              · rw [if_pos hc1] at h
                match best with
                | none =>
                  rcases find_structure_spec n p.structures 0 0 none with
                    ⟨hsc, -⟩ | ⟨-, j, s2, hsome, -, -, -⟩
                  · rw [hfs] at hsc
                    dsimp only at hsc
                    omega
                  · rw [hfs] at hsome
                    dsimp only at hsome
                    cases hsome
                | some (idx, s) =>
                  dsimp only at h
                  by_cases har : s.template_arguments.length ≠ argIds.length
                  · rw [if_pos har] at h
                    cases h
                    refine ⟨push_err_step _ st, ?_, rfl⟩
                    intro herrs
                    simp [push_err] at herrs
                  · rw [if_neg har] at h
                    obtain ⟨a1, -, hsm, e1⟩ := ih.pIS idx argIds st r st2 h
                    refine ⟨a1, ?_, e1⟩
                    intro herrs n2 hn hall
                    rcases find_structure_spec n p.structures 0 0 none with
                      ⟨hsc, -⟩ | ⟨-, j, s2, hsome, hget, -, -⟩
                    · rw [hfs] at hsc
                      dsimp only at hsc
                      omega
                    · rw [hfs] at hsome
                      dsimp only at hsome
                      cases hsome
                      exact hsm s (by simpa using hget) (not_ne_iff.mp har).symm
              · rw [if_neg hc1] at h
                cases h
                refine ⟨push_err_step _ st, ?_, rfl⟩
                intro herrs
                simp [push_err] at herrs

theorem handle_type_name_succ (p : SProgram) (f : Nat) (tv : Frame) (n : String) (st : St) :
    handle_type p (f + 1) tv (.name n) st =
      match alookup tv n with
      | some t => some (some t, st)
      | none => get_type p f (some n) [] st := rfl

theorem step_HT (p : SProgram) (f : Nat) (ih : MegaP p f) :
    ∀ tv e st r st2, handle_type p (f + 1) tv e st = some (r, st2) →
      AStep p st st2 ∧
      (st2.errs = [] → wfTypeExprB e = true → r.isSome = true) ∧
      st2.fmemo = st.fmemo := by
  intro tv e st r st2 h
  match e with
  | .name n =>
    rw [handle_type_name_succ] at h
    match h0 : alookup tv n with
    | some t =>
      rw [h0] at h
      cases h
      exact ⟨AStep.rfl st, fun _ _ => rfl, rfl⟩
    | none =>
      rw [h0] at h
      obtain ⟨a1, ty1, e1⟩ := ih.pGT (some n) [] st r st2 h
      exact ⟨a1, fun herrs _ => ty1 herrs n rfl rfl, e1⟩
  | .call callee args =>
    rw [handle_type_call_succ] at h
    rcases get_name_cases callee st with ⟨s2, hc, hgn⟩ | hgn
    · rw [hgn] at h
      dsimp only at h
      match h1 : handle_type_list p f tv args st with
      | none => rw [h1] at h; cases h
      | some (ts, st1) =>
        rw [h1] at h
        obtain ⟨a1, ty1, e1⟩ := ih.pHTL tv args st _ _ h1
        obtain ⟨a2, ty2, e2⟩ := ih.pGT (some s2) ts st1 r st2 h
        refine ⟨AStep.trans a1 a2, ?_, by rw [e2, e1]⟩
        intro herrs hwf
        have h1e : st1.errs = [] := errs_nil_of_ext a2.errsExt herrs
        refine ty2 herrs s2 rfl (ty1 h1e ?_)
        simpa [wfTypeExprB] using hwf
    · rw [hgn] at h
      dsimp only at h
      match h1 : handle_type_list p f tv args (push_err .expectedName st) with
      | none => rw [h1] at h; cases h
      | some (ts, st1) =>
        rw [h1] at h
        obtain ⟨a1, -, e1⟩ := ih.pHTL tv args (push_err .expectedName st) _ _ h1
        obtain ⟨a2, -, e2⟩ := ih.pGT none ts st1 r st2 h
        refine ⟨AStep.trans (push_err_step _ st) (AStep.trans a1 a2), ?_,
          by rw [e2, e1]; rfl⟩
        intro herrs hwf
        have h1e : (push_err .expectedName st).errs = [] :=
          errs_nil_of_ext (AStep.trans a1 a2).errsExt herrs
        simp [push_err] at h1e
  | .intLit v =>
    cases h
    refine ⟨AStep.rfl st, ?_, rfl⟩
    intro _ hwf
    simp [wfTypeExprB] at hwf
  | .binary op l r2 =>
    cases h
    refine ⟨AStep.rfl st, ?_, rfl⟩
    intro _ hwf
    simp [wfTypeExprB] at hwf
  | .assign l r2 =>
    cases h
    refine ⟨AStep.rfl st, ?_, rfl⟩
    intro _ hwf
    simp [wfTypeExprB] at hwf
  | .member recv mn =>
    cases h
    refine ⟨AStep.rfl st, ?_, rfl⟩
    intro _ hwf
    simp [wfTypeExprB] at hwf

theorem step_IS (p : SProgram) (f : Nat) (ih : MegaP p f) :
    ∀ sIdx targs st r st2, instantiate_structure p (f + 1) sIdx targs st = some (r, st2) →
      AStep p st st2 ∧
      (∀ tid, r = some tid → alookup st2.smemo (sIdx, targs) = some tid) ∧
      (∀ sd, p.structures.get? sIdx = some sd → targs.length = sd.template_arguments.length →
        r.isSome = true) ∧
      st2.fmemo = st.fmemo := by
  intro sIdx targs st r st2 h
  rw [instantiate_structure.eq_def] at h
  split at h
  · cases h
    refine ⟨AStep.rfl st, fun tid htid => Option.noConfusion htid, ?_, rfl⟩
    intro sd hget harity
    rename_i hnone
    rw [hnone] at hget
    cases hget
  · split at h
    · cases h
      refine ⟨AStep.rfl st, fun tid htid => Option.noConfusion htid, ?_, rfl⟩
      intro sd hget harity
      rename_i hget2 hlen
      rw [hget2] at hget
      cases hget
      exact absurd harity hlen
    · split at h
      · cases h
        rename_i hget2 hlen htid
        exact ⟨AStep.rfl st, fun t ht => by cases ht; exact htid, fun sd _ _ => rfl, rfl⟩
      · rename_i hmiss
        dsimp only at h
        split at h
        · cases h
        · rename_i ms stm h2
          cases h
          have a1 : AStep p st
              { st with nextId := st.nextId + 1,
                        typeTable := ainsert (st.nextId + 1) (TypeNode.structT sIdx targs) st.typeTable,
                        smemo := ainsert (sIdx, targs) (st.nextId + 1) st.smemo } := by
            refine ⟨?_, fun _ _ hh => hh, fun _ _ hh => hh, ⟨[], (List.nil_append _).symm⟩,
              Nat.le_succ _, ?_, ?_, ?_, ?_⟩
            · intro k v hv
              exact alookup_ainsert_mono _ _ hv
            · intro i h1 h2b
              exact absurd h1 h2b
            · intro i h1 h2b
              exact absurd h1 h2b
            · intro hs
              exact ⟨hs.typesPos, fun i hi => le_trans (hs.typesLe i hi) (Nat.le_succ _),
                hs.fnsPos, fun i hi => le_trans (hs.fnsLe i hi) (Nat.le_succ _),
                hs.typesNodup, hs.fnsNodup, hs.disj, hs.memoFn⟩
            · intro _ _ hty he
              exact hty he
          obtain ⟨a2, ef2⟩ := ih.pISM _ _ _ _ _ h2
          have a12 := AStep.trans a1 a2
          refine ⟨?_, ?_, fun _ _ _ => rfl, ?_⟩
          · refine ⟨fun k v hv => a12.smemoLe k v hv, fun k v hv => a12.fmemoLe k v hv,
              fun k v hv => a12.fnTableLe k v hv, a12.errsExt, a12.nextIdLe, ?_, ?_, ?_, ?_⟩
            · intro i h1 h2b
              dsimp only at h1
              rw [List.mem_append, List.mem_singleton] at h1
              rcases h1 with h1 | h1
              · exact a12.freshTypes i h1 h2b
              · omega
            · intro i h1 h2b
              exact a12.freshFns i h1 h2b
            · intro hs
              have hs2 := a12.invPres hs
              have htid_big : st.nextId + 1 ≤ stm.nextId := a2.nextIdLe
              have htid_notin : st.nextId + 1 ∉ stm.types := by
                intro hmem
                by_cases hin : st.nextId + 1 ∈ st.types
                · have := hs.typesLe _ hin
                  omega
                · have := a2.freshTypes _ hmem hin
                  dsimp only at this
                  omega
              have htid_notfn : st.nextId + 1 ∉ stm.fnInsts := by
                intro hmem
                by_cases hin : st.nextId + 1 ∈ st.fnInsts
                · have := hs.fnsLe _ hin
                  omega
                · have := a2.freshFns _ hmem hin
                  dsimp only at this
                  omega
              refine ⟨?_, ?_, hs2.fnsPos, hs2.fnsLe, ?_, hs2.fnsNodup, ?_, hs2.memoFn⟩
              · intro i hi
                dsimp only at hi
                rw [List.mem_append, List.mem_singleton] at hi
                rcases hi with hi | hi
                · exact hs2.typesPos i hi
                · omega
              · intro i hi
                dsimp only at hi ⊢
                rw [List.mem_append, List.mem_singleton] at hi
                rcases hi with hi | hi
                · exact hs2.typesLe i hi
                · omega
              · dsimp only
                rw [List.nodup_append]
                refine ⟨hs2.typesNodup, List.nodup_singleton _, ?_⟩
                intro a ha hb
                rw [List.mem_singleton] at hb
                subst hb
                exact htid_notin ha
              · intro i hi
                dsimp only at hi ⊢
                rw [List.mem_append, List.mem_singleton] at hi
                rcases hi with hi | hi
                · exact hs2.disj i hi
                · subst hi
                  exact htid_notfn
            · intro hw hs hty he
              exact a12.tyPres hw hs hty he
          · intro t ht
            cases ht
            exact a2.smemoLe _ _ (alookup_ainsert_self _ hmiss)
          · rw [ef2]

theorem step_UM (p : SProgram) (f : Nat) (ih : MegaP p f) :
    ∀ tnames pat actual slots st b slots2 st2,
      unify_match p (f + 1) tnames pat actual slots st = some ((b, slots2), st2) →
      AStep p st st2 ∧ slots2.length = slots.length ∧ (b = true → actual.isSome = true) := by
  intro tnames pat actual slots st b slots2 st2 h
  rw [unify_match.eq_def] at h
  dsimp only at h
  match actual with
  | none =>
    cases h
    exact ⟨AStep.rfl st, rfl, fun hb => by cases hb⟩
  | some a =>
    match pat with
    | .intLit v =>
      cases h
      exact ⟨AStep.rfl st, rfl, fun _ => rfl⟩
    | .binary op l r2 =>
      cases h
      exact ⟨AStep.rfl st, rfl, fun _ => rfl⟩
    | .assign l r2 =>
      cases h
      exact ⟨AStep.rfl st, rfl, fun _ => rfl⟩
    | .member recv mn =>
      cases h
      exact ⟨AStep.rfl st, rfl, fun _ => rfl⟩
    | .name n =>
      dsimp only at h
      split at h
      · rw [Option.some.injEq, Prod.mk.injEq] at h
        obtain ⟨h3, h4⟩ := h
        subst h4
        have hlen := congrArg (fun q => (Prod.snd q).length) h3
        dsimp only at hlen
        refine ⟨AStep.rfl st, ?_, fun _ => rfl⟩
        rw [← hlen, set_variable_length]
      · split at h
        · cases h
        · rename_i t st1 h1
          match t with
          | some tt =>
            dsimp only at h
            cases h
            obtain ⟨a1, -, -⟩ := ih.pGT _ _ _ _ _ h1
            exact ⟨a1, rfl, fun _ => rfl⟩
          | none =>
            dsimp only at h
            cases h
            obtain ⟨a1, -, -⟩ := ih.pGT _ _ _ _ _ h1
            exact ⟨a1, rfl, fun _ => rfl⟩
    | .call callee cargs =>
      dsimp only at h
      match hgn : get_name callee st with
      | (n2, st1) =>
        rw [hgn] at h
        dsimp only at h
        have a0 : AStep p st st1 := by
          have hstep := get_name_step (p := p) callee st
          rw [hgn] at hstep
          exact hstep
        split at h
        · split at h
          · split at h
            · cases h
              exact ⟨a0, rfl, fun _ => rfl⟩
            · split at h
              · cases h
                exact ⟨a0, rfl, fun _ => rfl⟩
              · obtain ⟨a1, l1, -⟩ := ih.pUML _ _ _ _ _ _ _ _ h
                exact ⟨AStep.trans a0 a1, l1, fun _ => rfl⟩
          · cases h
            exact ⟨a0, rfl, fun _ => rfl⟩
        · cases h
          exact ⟨a0, rfl, fun _ => rfl⟩

theorem step_UML (p : SProgram) (f : Nat) (ih : MegaP p f) :
    ∀ tnames pats actuals slots st b slots2 st2,
      unify_match_list p (f + 1) tnames pats actuals slots st = some ((b, slots2), st2) →
      AStep p st st2 ∧ slots2.length = slots.length ∧
      (b = true → pats.length = actuals.length → actuals.all Option.isSome = true) := by
  intro tnames pats actuals slots st b slots2 st2 h
  rw [unify_match_list.eq_def] at h
  dsimp only at h
  match pats, actuals with
  | [], [] =>
    cases h
    exact ⟨AStep.rfl st, rfl, fun _ _ => rfl⟩
  | [], a :: ar =>
    cases h
    refine ⟨AStep.rfl st, rfl, fun _ hlen => ?_⟩
    simp at hlen
  | pt :: pr, [] =>
    cases h
    refine ⟨AStep.rfl st, rfl, fun _ hlen => ?_⟩
    simp at hlen
  | pt :: pr, a :: ar =>
    dsimp only at h
    split at h
    · cases h
    · rename_i b1 slots1 st1 h1
      split at h
      · rename_i hb1
        obtain ⟨a1, l1, c1⟩ := ih.pUM _ _ _ _ _ _ _ _ h1
        obtain ⟨a2, l2, c2⟩ := ih.pUML _ _ _ _ _ _ _ _ h
        refine ⟨AStep.trans a1 a2, by rw [l2, l1], ?_⟩
        intro hb hlen
        simp only [List.all_cons, Bool.and_eq_true]
        refine ⟨c1 hb1, c2 hb ?_⟩
        simpa using hlen
      · cases h
        obtain ⟨a1, l1, c1⟩ := ih.pUM _ _ _ _ _ _ _ _ h1
        exact ⟨a1, l1, fun hb _ => by cases hb⟩

theorem step_UR (p : SProgram) (f : Nat) (ih : MegaP p f) :
    ∀ fn argTys rt st r st2, unify_run p (f + 1) fn argTys rt st = some (r, st2) →
      AStep p st st2 ∧
      (∀ ts, r = some ts → argTys.all Option.isSome = true ∧
        ts.length = fn.template_arguments.length) := by
  intro fn argTys rt st r st2 h
  rw [unify_run.eq_def] at h
  dsimp only at h
  split at h
  · cases h
    exact ⟨AStep.rfl st, fun ts hts => Option.noConfusion hts⟩
  · rename_i harity
    split at h
    · cases h
    · rename_i b1 slots1 st1 h1
      obtain ⟨a1, l1, c1⟩ := ih.pUML _ _ _ _ _ _ _ _ h1
      have hargs : b1 = true → argTys.all Option.isSome = true := by
        intro hb
        refine c1 hb ?_
        simpa using not_ne_iff.mp harity
      have hslots1 : slots1.length = fn.template_arguments.length := by
        rw [l1, List.length_replicate]
      split at h
      · rename_i hb1
        match rt with
        | none =>
          dsimp only at h
          split at h
          · rename_i ts0 hts0
            cases h
            refine ⟨a1, ?_⟩
            intro ts hts
            cases hts
            exact ⟨hargs hb1, by rw [all_some_length hts0, hslots1]⟩
          · cases h
            exact ⟨a1, fun ts hts => Option.noConfusion hts⟩
        | some rt2 =>
          dsimp only at h
          split at h
          · cases h
          · rename_i b2 slots2m st2m h2
            obtain ⟨a2, l2, -⟩ := ih.pUM _ _ _ _ _ _ _ _ h2
            split at h
            · split at h
              · rename_i hb2 ts0 hts0
                cases h
                refine ⟨AStep.trans a1 a2, ?_⟩
                intro ts hts
                cases hts
                refine ⟨hargs hb1, ?_⟩
                rw [all_some_length hts0, l2, hslots1]
              · cases h
                exact ⟨AStep.trans a1 a2, fun ts hts => Option.noConfusion hts⟩
            · cases h
              exact ⟨AStep.trans a1 a2, fun ts hts => Option.noConfusion hts⟩
      · cases h
        exact ⟨a1, fun ts hts => Option.noConfusion hts⟩

theorem step_GFL (p : SProgram) (f : Nat) (ih : MegaP p f) :
    ∀ nm argTys rt idx fns count bi bt st res st2,
      get_function_loop p (f + 1) nm argTys rt idx fns count bi bt st = some (res, st2) →
      AStep p st st2 ∧
      ((res.1 = count ∧ res.2.1 = bi ∧ res.2.2 = bt) ∨
       (count < res.1 ∧
        ((∀ i fn2, fns.get? i = some fn2 → p.functions.get? (idx + i) = some fn2) →
         ∃ fn2, p.functions.get? res.2.1 = some fn2 ∧ fn2.name = nm ∧
           res.2.2.length = fn2.template_arguments.length ∧
           argTys.all Option.isSome = true))) := by
  intro nm argTys rt idx fns count bi bt st res st2 h
  rw [get_function_loop.eq_def] at h
  dsimp only at h
  match fns with
  | [] =>
    cases h
    exact ⟨AStep.rfl st, Or.inl ⟨rfl, rfl, rfl⟩⟩
  | fn :: rest =>
    dsimp only at h
    split at h
    · rename_i hname
      split at h
      · cases h
      · rename_i r1 st1 h1
        obtain ⟨a1, c1⟩ := ih.pUR _ _ _ _ _ _ h1
        match r1 with
        | some targs =>
          dsimp only at h
          obtain ⟨a2, hd⟩ := ih.pGFL _ _ _ _ _ _ _ _ _ _ _ h
          refine ⟨AStep.trans a1 a2, ?_⟩
          obtain ⟨hts1, hts2⟩ := c1 targs rfl
          rcases hd with ⟨e1, e2, e3⟩ | ⟨hlt, hex⟩
          · have e1b : res.1 = count + 1 := e1
            refine Or.inr ⟨by omega, ?_⟩
            intro halign
            refine ⟨fn, ?_, hname, ?_, hts1⟩
            · rw [show res.2.1 = idx from e2]
              have := halign 0 fn rfl
              simpa using this
            · rw [show res.2.2 = targs from e3]
              exact hts2
          · have hltb : count + 1 < res.1 := hlt
            refine Or.inr ⟨by omega, ?_⟩
            intro halign
            refine hex ?_
            intro i fn2 hget
            have := halign (i + 1) fn2 (by simpa using hget)
            rw [show idx + (i + 1) = idx + 1 + i by omega] at this
            exact this
        | none =>
          dsimp only at h
          obtain ⟨a2, hd⟩ := ih.pGFL _ _ _ _ _ _ _ _ _ _ _ h
          refine ⟨AStep.trans a1 a2, ?_⟩
          rcases hd with ⟨e1, e2, e3⟩ | ⟨hlt, hex⟩
          · exact Or.inl ⟨e1, e2, e3⟩
          · refine Or.inr ⟨hlt, ?_⟩
            intro halign
            refine hex ?_
            intro i fn2 hget
            have := halign (i + 1) fn2 (by simpa using hget)
            rw [show idx + (i + 1) = idx + 1 + i by omega] at this
            exact this
    · obtain ⟨a2, hd⟩ := ih.pGFL _ _ _ _ _ _ _ _ _ _ _ h
      refine ⟨a2, ?_⟩
      rcases hd with ⟨e1, e2, e3⟩ | ⟨hlt, hex⟩
      · exact Or.inl ⟨e1, e2, e3⟩
      · refine Or.inr ⟨hlt, ?_⟩
        intro halign
        refine hex ?_
        intro i fn2 hget
        have := halign (i + 1) fn2 (by simpa using hget)
        rw [show idx + (i + 1) = idx + 1 + i by omega] at this
        exact this

theorem step_GF (p : SProgram) (f : Nat) (ih : MegaP p f) :
    ∀ nm argTys rt st r st2, get_function p (f + 1) nm argTys rt st = some (r, st2) →
      AStep p st st2 ∧
      (∀ fid, r = some fid → argTys.all Option.isSome = true ∧
        (SInv st → ∃ fe, alookup st2.fnTable fid = some fe)) := by
  intro nm argTys rt st r st2 h
  rw [get_function.eq_def] at h
  dsimp only at h
  match nm with
  | none =>
    cases h
    exact ⟨AStep.rfl st, fun fid hf => Option.noConfusion hf⟩
  | some n =>
    dsimp only at h
    split at h
    · cases h
    · rename_i count bestIdx bestTargs st1 h1
      obtain ⟨a1, hd⟩ := ih.pGFL _ _ _ _ _ _ _ _ _ _ _ h1
      split at h
      · rename_i hc1
        obtain ⟨a2, c2, -⟩ := ih.pIF _ _ _ _ _ h
        refine ⟨AStep.trans a1 a2, ?_⟩
        intro fid hf
        obtain ⟨hm, hent⟩ := c2 fid hf
        constructor
        · rcases hd with ⟨e1, -, -⟩ | ⟨-, hex⟩
          · have e1b : count = 0 := e1
            omega
          · obtain ⟨fn2, -, -, -, hall⟩ := hex (fun i fn2 hget => by simpa using hget)
            exact hall
        · intro hs
          exact hent (a1.invPres hs)
      · split at h
        · cases h
          exact ⟨AStep.trans a1 (push_err_step _ st1), fun fid hf => Option.noConfusion hf⟩
        · cases h
          exact ⟨AStep.trans a1 (push_err_step _ st1), fun fid hf => Option.noConfusion hf⟩

theorem alookup_ainsert_cases {α β : Type} [DecidableEq α] {l : List (α × β)} {k k2 : α}
    {v w : β} (h : alookup (ainsert k v l) k2 = some w) :
    alookup l k2 = some w ∨ (k2 = k ∧ w = v ∧ alookup l k = none) := by
  unfold ainsert at h
  split at h
  · exact Or.inl h
  · rename_i hnone
    simp only [alookup] at h
    split at h
    · rename_i hk
      cases h
      exact Or.inr ⟨hk.symm, rfl, hnone⟩
    · exact Or.inl h

theorem ainsert_all {α β : Type} [DecidableEq α] {l : List (α × β)} {f : α × β → Bool}
    (hl : l.all f = true) (k : α) (v : β) (hv : f (k, v) = true) :
    (ainsert k v l).all f = true := by
  unfold ainsert
  split
  · exact hl
  · simp [List.all_cons, hv, hl]

theorem step_IF (p : SProgram) (f : Nat) (ih : MegaP p f) :
    ∀ fIdx targs st r st2, instantiate_function p (f + 1) fIdx targs st = some (r, st2) →
      AStep p st st2 ∧
      (∀ fid, r = some fid → alookup st2.fmemo (fIdx, targs) = some fid ∧
        (SInv st → ∃ fe, alookup st2.fnTable fid = some fe)) ∧
      (∀ fn, p.functions.get? fIdx = some fn → targs.length = fn.template_arguments.length →
        r.isSome = true) := by
  intro fIdx targs st r st2 h
  rw [instantiate_function.eq_def] at h
  split at h
  · cases h
    refine ⟨AStep.rfl st, fun fid hfid => Option.noConfusion hfid, ?_⟩
    intro fn hget harity
    rename_i hnone
    rw [hnone] at hget
    cases hget
  · split at h
    · cases h
      refine ⟨AStep.rfl st, fun fid hfid => Option.noConfusion hfid, ?_⟩
      intro fn hget harity
      rename_i hget2 hlen
      rw [hget2] at hget
      cases hget
      exact absurd harity hlen
    · split at h
      · cases h
        rename_i hget2 hlen hfid
        refine ⟨AStep.rfl st, ?_, fun fn _ _ => rfl⟩
        intro fid2 hf
        cases hf
        exact ⟨hfid, fun hinv => hinv.memoFn _ _ hfid⟩
      · rename_i scrA fn hget hlen scrB hmiss
        dsimp only at h
        split at h
        · cases h
        · rename_i iargs frame stA hIFA
          split at h
          · cases h
          · rename_i rt stB hHT
            split at h
            · cases h
            · rename_i stmts stC hHB
              cases h
              obtain ⟨a2, ef2⟩ := ih.pIFA _ _ _ _ _ _ _ hIFA
              obtain ⟨a3, hty3, ef3⟩ := ih.pHT _ _ _ _ _ hHT
              obtain ⟨a5, c5⟩ := ih.pHB _ _ _ _ _ _ hHB
              have a1 : AStep p st { st with nextId := st.nextId + 1 } := by
                refine ⟨fun _ _ hh => hh, fun _ _ hh => hh, fun _ _ hh => hh,
                  ⟨[], (List.nil_append _).symm⟩, Nat.le_succ _, ?_, ?_, ?_, ?_⟩
                · intro i h1 h2b
                  exact absurd h1 h2b
                · intro i h1 h2b
                  exact absurd h1 h2b
                · intro hs
                  exact ⟨hs.typesPos, fun i hi => le_trans (hs.typesLe i hi) (Nat.le_succ _),
                    hs.fnsPos, fun i hi => le_trans (hs.fnsLe i hi) (Nat.le_succ _),
                    hs.typesNodup, hs.fnsNodup, hs.disj, hs.memoFn⟩
                · intro _ _ hty he
                  exact hty he
              have hfm3 : stB.fmemo = st.fmemo := by rw [ef3, ef2]
              have a4 : AStep p stB
                  { stB with
                      fnTable := ainsert (st.nextId + 1) ⟨fIdx, targs, iargs, rt⟩ stB.fnTable,
                      fmemo := ainsert (fIdx, targs) (st.nextId + 1) stB.fmemo } := by
                refine ⟨fun _ _ hh => hh, ?_, ?_, ⟨[], (List.nil_append _).symm⟩, le_refl _,
                  ?_, ?_, ?_, ?_⟩
                · intro k v hv
                  exact alookup_ainsert_mono _ _ hv
                · intro k v hv
                  exact alookup_ainsert_mono _ _ hv
                · intro i h1 h2b
                  exact absurd h1 h2b
                · intro i h1 h2b
                  exact absurd h1 h2b
                · intro hs
                  refine ⟨hs.typesPos, hs.typesLe, hs.fnsPos, hs.fnsLe, hs.typesNodup,
                    hs.fnsNodup, hs.disj, ?_⟩
                  intro k fid2 hk
                  rcases alookup_ainsert_cases hk with hk2 | ⟨-, hw2, -⟩
                  · obtain ⟨fe, hfe⟩ := hs.memoFn _ _ hk2
                    exact ⟨fe, alookup_ainsert_mono _ _ hfe⟩
                  · subst hw2
                    obtain ⟨fe, hfe⟩ := Option.isSome_iff_exists.mp
                      (alookup_ainsert_isSome stB.fnTable (st.nextId + 1) ⟨fIdx, targs, iargs, rt⟩)
                    exact ⟨fe, hfe⟩
                · intro hw hs hty he
                  have he3 : stB.errs = [] := he
                  obtain ⟨ht1, ht2⟩ := hty he3
                  refine ⟨?_, ht2⟩
                  refine ainsert_all ht1 _ _ ?_
                  dsimp only
                  exact hty3 he3 (wf_return_type hw hget)
              have a12 := AStep.trans a1 a2
              have a13 := AStep.trans a12 a3
              have a14 := AStep.trans a13 a4
              have a15 := AStep.trans a14 a5
              have a25 := AStep.trans a2 (AStep.trans a3 (AStep.trans a4 a5))
              refine ⟨?_, ?_, fun fn2 _ _ => rfl⟩
              · refine ⟨fun k v hv => a15.smemoLe k v hv, fun k v hv => a15.fmemoLe k v hv,
                  fun k v hv => a15.fnTableLe k v hv, a15.errsExt, a15.nextIdLe, ?_, ?_, ?_, ?_⟩
                · intro i h1 h2b
                  exact a15.freshTypes i h1 h2b
                · intro i h1 h2b
                  dsimp only at h1
                  rw [List.mem_append, List.mem_singleton] at h1
                  rcases h1 with h1 | h1
                  · exact a15.freshFns i h1 h2b
                  · omega
                · intro hs
                  have hs5 := a15.invPres hs
                  have hfid_le : st.nextId + 1 ≤ stC.nextId := a25.nextIdLe
                  have hfid_notfn : st.nextId + 1 ∉ stC.fnInsts := by
                    intro hmem
                    by_cases hin : st.nextId + 1 ∈ st.fnInsts
                    · have := hs.fnsLe _ hin
                      omega
                    · have := a25.freshFns _ hmem hin
                      dsimp only at this
                      omega
                  refine ⟨hs5.typesPos, hs5.typesLe, ?_, ?_, hs5.typesNodup, ?_, ?_, hs5.memoFn⟩
                  · intro i hi
                    dsimp only at hi
                    rw [List.mem_append, List.mem_singleton] at hi
                    rcases hi with hi | hi
                    · exact hs5.fnsPos i hi
                    · omega
                  · intro i hi
                    dsimp only at hi ⊢
                    rw [List.mem_append, List.mem_singleton] at hi
                    rcases hi with hi | hi
                    · exact hs5.fnsLe i hi
                    · omega
                  · dsimp only
                    rw [List.nodup_append]
                    refine ⟨hs5.fnsNodup, List.nodup_singleton _, ?_⟩
                    intro a ha hb
                    rw [List.mem_singleton] at hb
                    subst hb
                    exact hfid_notfn ha
                  · intro i hi
                    dsimp only at hi ⊢
                    intro hmem
                    rw [List.mem_append, List.mem_singleton] at hmem
                    rcases hmem with hmem | hmem
                    · exact hs5.disj i hi hmem
                    · subst hmem
                      by_cases hin : st.nextId + 1 ∈ st.types
                      · have := hs.typesLe _ hin
                        omega
                      · have := a25.freshTypes _ hi hin
                        dsimp only at this
                        omega
                · intro hw hs hty he
                  have h5e : stC.errs = [] := he
                  obtain ⟨ht1, ht2⟩ := a15.tyPres hw hs hty h5e
                  refine ⟨ht1, ?_⟩
                  refine ainsert_all ht2 _ _ ?_
                  dsimp only
                  exact c5 hw (a14.invPres hs) (a14.tyPres hw hs hty) h5e
              · intro fid2 hf
                cases hf
                constructor
                · refine a5.fmemoLe _ _ ?_
                  refine alookup_ainsert_self _ ?_
                  rw [hfm3]
                  exact hmiss
                · intro hs
                  obtain ⟨fe, hfe⟩ := Option.isSome_iff_exists.mp
                    (alookup_ainsert_isSome stB.fnTable (st.nextId + 1) ⟨fIdx, targs, iargs, rt⟩)
                  exact ⟨fe, a5.fnTableLe _ _ hfe⟩

theorem args_typed_aux : ∀ {acc : List (Option IExpr)},
    (acc.map (fun a => a.bind IExpr.tyOf)).all Option.isSome = true →
    (∀ a e3, a ∈ acc → a = some e3 → exprTypedB e3 = true) →
    argsTypedB acc = true := by
  intro acc
  induction acc with
  | nil => intro _ _; rfl
  | cons a r ihh =>
    intro hall hacc
    simp only [List.map_cons, List.all_cons, Bool.and_eq_true] at hall
    match a, hall.1 with
    | some e3, _ =>
      simp only [argsTypedB, Bool.and_eq_true]
      refine ⟨hacc _ e3 (List.mem_cons_self _ _) rfl, ihh hall.2 ?_⟩
      intro a2 e4 hmem heq
      exact hacc a2 e4 (List.mem_cons_of_mem _ hmem) heq

theorem step_HCA (p : SProgram) (f : Nat) (ih : MegaP p f) :
    ∀ vars tv nm exp acc pending st r st2,
      handle_call_args p (f + 1) vars tv nm exp acc pending st = some (r, st2) →
      AStep p st st2 ∧
      (wfProgramB p = true → SInv st → TyInv st → st2.errs = [] →
        (∀ a e3, a ∈ acc → a = some e3 → exprTypedB e3 = true) →
        ∀ e2, r = some e2 → exprTypedB e2 = true) := by
  intro vars tv nm exp acc pending st r st2 h
  rw [handle_call_args.eq_def] at h
  dsimp only at h
  match pending with
  | [] =>
    dsimp only at h
    split at h
    · cases h
    · rename_i r1 st1 h1
      obtain ⟨a1, c1⟩ := ih.pGF _ _ _ _ _ _ h1
      match r1 with
      | none =>
        dsimp only at h
        cases h
        exact ⟨a1, fun _ _ _ _ _ e2 he => Option.noConfusion he⟩
      | some fid =>
        dsimp only at h
        cases h
        refine ⟨a1, ?_⟩
        intro hw hs hty herrs hacc e2 he
        cases he
        obtain ⟨hall, hent⟩ := c1 fid rfl
        obtain ⟨fe, hfe⟩ := hent hs
        simp only [exprTypedB, Bool.and_eq_true]
        constructor
        · rw [hfe]
          have hty2 := (a1.tyPres hw hs hty) herrs
          exact all_of_alookup hty2.1 hfe
        · exact args_typed_aux hall hacc
  | a :: rest =>
    dsimp only at h
    split at h
    · cases h
    · rename_i ae st1 h1
      obtain ⟨a1, c1⟩ := ih.pHE _ _ _ _ _ _ _ h1
      obtain ⟨a2, c2⟩ := ih.pHCA _ _ _ _ _ _ _ _ _ h
      refine ⟨AStep.trans a1 a2, ?_⟩
      intro hw hs hty herrs hacc e2 he
      have h1e : st1.errs = [] := errs_nil_of_ext a2.errsExt herrs
      refine c2 hw (a1.invPres hs) (a1.tyPres hw hs hty) herrs ?_ e2 he
      intro a2m e3 hmem heq
      rw [List.mem_append, List.mem_singleton] at hmem
      rcases hmem with hmem | hmem
      · exact hacc a2m e3 hmem heq
      · subst hmem
        exact c1 hw hs hty h1e e3 heq

theorem step_HE (p : SProgram) (f : Nat) (ih : MegaP p f) :
    ∀ vars tv e exp st r st2, handle_expression p (f + 1) vars tv e exp st = some (r, st2) →
      AStep p st st2 ∧
      (wfProgramB p = true → SInv st → TyInv st → st2.errs = [] →
        ∀ e2, r = some e2 → exprTypedB e2 = true) := by
  intro vars tv e exp st r st2 h
  rw [handle_expression.eq_def] at h
  dsimp only at h
  match e with
  | .intLit v =>
    match hgi : get_int_type st with
    | (it, st1) =>
      rw [hgi] at h
      dsimp only at h
      cases h
      refine ⟨?_, ?_⟩
      · have hstep := get_int_type_step (p := p) st
        rw [hgi] at hstep
        exact hstep
      · intro _ _ _ _ e2 he
        cases he
        simp [exprTypedB]
  | .name n =>
    dsimp only at h
    split at h
    · cases h
      exact ⟨push_err_step _ st, fun _ _ _ _ e2 he => Option.noConfusion he⟩
    · cases h
      refine ⟨AStep.rfl st, ?_⟩
      intro _ _ _ _ e2 he
      cases he
      simp [exprTypedB]
  | .binary op l r2 =>
    dsimp only at h
    split at h
    · cases h
    · rename_i le st1 h1
      split at h
      · cases h
      · rename_i re stB h2
        obtain ⟨a1, c1h⟩ := ih.pHE _ _ _ _ _ _ _ h1
        obtain ⟨a2, c2h⟩ := ih.pHE _ _ _ _ _ _ _ h2
        have a12 := AStep.trans a1 a2
        match le, re with
        | some le2, some re2 =>
          dsimp only at h
          match hgi : get_int_type stB with
          | (it, stC) =>
            rw [hgi] at h
            dsimp only at h
            have agi : AStep p stB stC := by
              have hstep := get_int_type_step (p := p) stB
              rw [hgi] at hstep
              exact hstep
            have a13 := AStep.trans a12 agi
            split at h
            · rename_i hcond
              cases h
              refine ⟨a13, ?_⟩
              intro hw hs hty herrs e2 he
              cases he
              have hBe : stB.errs = [] := errs_nil_of_ext agi.errsExt herrs
              have h1e : st1.errs = [] := errs_nil_of_ext a2.errsExt hBe
              simp only [exprTypedB, Bool.and_eq_true]
              refine ⟨⟨?_, ?_⟩, ?_⟩
              · rw [hcond.1]
                rfl
              · exact c1h hw hs hty h1e le2 rfl
              · exact c2h hw (a1.invPres hs) (a1.tyPres hw hs hty) hBe re2 rfl
            · cases h
              exact ⟨AStep.trans a13 (push_err_step _ stC),
                fun _ _ _ _ e2 he => Option.noConfusion he⟩
        | none, _ =>
          dsimp only at h
          cases h
          exact ⟨a12, fun _ _ _ _ e2 he => Option.noConfusion he⟩
        | some le2, none =>
          dsimp only at h
          cases h
          exact ⟨a12, fun _ _ _ _ e2 he => Option.noConfusion he⟩
  | .assign l r2 =>
    dsimp only at h
    split at h
    · cases h
    · rename_i le st1 h1
      split at h
      · cases h
      · rename_i re stB h2
        obtain ⟨a1, c1h⟩ := ih.pHE _ _ _ _ _ _ _ h1
        obtain ⟨a2, c2h⟩ := ih.pHE _ _ _ _ _ _ _ h2
        have a12 := AStep.trans a1 a2
        match le with
        | none =>
          dsimp only [Option.bind] at h
          split at h
          · cases h
            refine ⟨?_, fun _ _ _ _ e2 he => Option.noConfusion he⟩
            repeat' split
            all_goals first
              | exact a12
              | exact AStep.trans a12 (push_err_step _ stB)
          · rename_i hcond
            exact absurd (Or.inl rfl) hcond
        | some (.intLit v t) =>
          dsimp only [Option.bind] at h
          rw [show IExpr.tyOf (.intLit v t) = t from rfl] at h
          split at h
          · cases h
            refine ⟨?_, fun _ _ _ _ e2 he => Option.noConfusion he⟩
            repeat' split
            all_goals first
              | exact a12
              | exact AStep.trans a12 (push_err_step _ stB)
              | exact AStep.trans a12 (AStep.trans (push_err_step _ stB) (push_err_step _ _))
          · rename_i hcond
            exact absurd (Or.inr (Or.inr (Or.inl rfl))) hcond
        | some (.binary op2 ba bb t) =>
          dsimp only [Option.bind] at h
          rw [show IExpr.tyOf (.binary op2 ba bb t) = t from rfl] at h
          split at h
          · cases h
            refine ⟨?_, fun _ _ _ _ e2 he => Option.noConfusion he⟩
            repeat' split
            all_goals first
              | exact a12
              | exact AStep.trans a12 (push_err_step _ stB)
              | exact AStep.trans a12 (AStep.trans (push_err_step _ stB) (push_err_step _ _))
          · rename_i hcond
            exact absurd (Or.inr (Or.inr (Or.inl rfl))) hcond
        | some (.assign ba bb t) =>
          dsimp only [Option.bind] at h
          rw [show IExpr.tyOf (.assign ba bb t) = t from rfl] at h
          split at h
          · cases h
            refine ⟨?_, fun _ _ _ _ e2 he => Option.noConfusion he⟩
            repeat' split
            all_goals first
              | exact a12
              | exact AStep.trans a12 (push_err_step _ stB)
              | exact AStep.trans a12 (AStep.trans (push_err_step _ stB) (push_err_step _ _))
          · rename_i hcond
            exact absurd (Or.inr (Or.inr (Or.inl rfl))) hcond
        | some (.call cfid cargs t) =>
          dsimp only [Option.bind] at h
          rw [show IExpr.tyOf (.call cfid cargs t) = t from rfl] at h
          split at h
          · cases h
            refine ⟨?_, fun _ _ _ _ e2 he => Option.noConfusion he⟩
            repeat' split
            all_goals first
              | exact a12
              | exact AStep.trans a12 (push_err_step _ stB)
              | exact AStep.trans a12 (AStep.trans (push_err_step _ stB) (push_err_step _ _))
          · rename_i hcond
            exact absurd (Or.inr (Or.inr (Or.inl rfl))) hcond
        | some (.member ba mn t) =>
          dsimp only [Option.bind] at h
          rw [show IExpr.tyOf (.member ba mn t) = t from rfl] at h
          split at h
          · cases h
            refine ⟨?_, fun _ _ _ _ e2 he => Option.noConfusion he⟩
            repeat' split
            all_goals first
              | exact a12
              | exact AStep.trans a12 (push_err_step _ stB)
              | exact AStep.trans a12 (AStep.trans (push_err_step _ stB) (push_err_step _ _))
          · rename_i hcond
            exact absurd (Or.inr (Or.inr (Or.inl rfl))) hcond
        | some (.name n t) =>
          dsimp only [Option.bind] at h
          rw [show IExpr.tyOf (.name n t) = t from rfl] at h
          match t with
          | none =>
            match re with
            | none =>
              dsimp only at h
              split at h
              · cases h
                exact ⟨a12, fun _ _ _ _ e2 he => Option.noConfusion he⟩
              · rename_i hcond
                exact absurd (Or.inr (Or.inl rfl)) hcond
            | some re2 =>
              dsimp only at h
              split at h
              · rename_i hcond
                rcases hcond with hc | hc | hc | hc
                · cases hc
                · cases hc
                · cases hc
                · cases hc
              · cases h
                refine ⟨a12, ?_⟩
                intro hw hs hty herrs e2 he
                have h1e : st1.errs = [] := errs_nil_of_ext a2.errsExt herrs
                have hbad := c1h hw hs hty h1e _ rfl
                simp [exprTypedB] at hbad
          | some t2 =>
            match re with
            | none =>
              dsimp only at h
              split at h
              · cases h
                exact ⟨a12, fun _ _ _ _ e2 he => Option.noConfusion he⟩
              · rename_i hcond
                exact absurd (Or.inr (Or.inl rfl)) hcond
            | some re2 =>
              dsimp only at h
              by_cases hmm2 : re2.tyOf ≠ some t2
              · rw [if_pos hmm2] at h
                split at h
                · cases h
                  exact ⟨AStep.trans a12 (push_err_step _ stB),
                    fun _ _ _ _ e2 he => Option.noConfusion he⟩
                · rename_i hcond
                  exact absurd (Or.inr (Or.inr (Or.inr rfl))) hcond
              · rw [if_neg hmm2] at h
                split at h
                · rename_i hcond
                  rcases hcond with hc | hc | hc | hc
                  · cases hc
                  · cases hc
                  · cases hc
                  · cases hc
                · cases h
                  refine ⟨a12, ?_⟩
                  intro hw hs hty herrs e2 he
                  cases he
                  have h1e : st1.errs = [] := errs_nil_of_ext a2.errsExt herrs
                  simp only [exprTypedB, Bool.and_eq_true]
                  exact ⟨⟨rfl, c1h hw hs hty h1e _ rfl⟩,
                    c2h hw (a1.invPres hs) (a1.tyPres hw hs hty) herrs re2 rfl⟩
  | .call callee args =>
    dsimp only at h
    match callee with
    | .member recv mname =>
      dsimp only at h
      split at h
      · cases h
      · rename_i r0 st1 h1
        obtain ⟨a1, c1h⟩ := ih.pHE _ _ _ _ _ _ _ h1
        obtain ⟨a2, c2h⟩ := ih.pHCA _ _ _ _ _ _ _ _ _ h
        refine ⟨AStep.trans a1 a2, ?_⟩
        intro hw hs hty herrs e2 he
        have h1e : st1.errs = [] := errs_nil_of_ext a2.errsExt herrs
        refine c2h hw (a1.invPres hs) (a1.tyPres hw hs hty) herrs ?_ e2 he
        intro am e3 hmem heq
        rw [List.mem_singleton] at hmem
        subst hmem
        exact c1h hw hs hty h1e e3 heq
    | .name cn =>
      dsimp only [get_name] at h
      obtain ⟨a2, c2h⟩ := ih.pHCA _ _ _ _ _ _ _ _ _ h
      refine ⟨a2, ?_⟩
      intro hw hs hty herrs e2 he
      exact c2h hw hs hty herrs (fun a e3 hmem => absurd hmem (List.not_mem_nil a)) e2 he
    | .intLit v =>
      dsimp only [get_name] at h
      obtain ⟨a2, c2h⟩ := ih.pHCA _ _ _ _ _ _ _ _ _ h
      refine ⟨AStep.trans (push_err_step _ st) a2, ?_⟩
      intro hw hs hty herrs e2 he
      have hpe := errs_nil_of_ext a2.errsExt herrs
      simp [push_err] at hpe
    | .binary op2 a b =>
      dsimp only [get_name] at h
      obtain ⟨a2, c2h⟩ := ih.pHCA _ _ _ _ _ _ _ _ _ h
      refine ⟨AStep.trans (push_err_step _ st) a2, ?_⟩
      intro hw hs hty herrs e2 he
      have hpe := errs_nil_of_ext a2.errsExt herrs
      simp [push_err] at hpe
    | .assign a b =>
      dsimp only [get_name] at h
      obtain ⟨a2, c2h⟩ := ih.pHCA _ _ _ _ _ _ _ _ _ h
      refine ⟨AStep.trans (push_err_step _ st) a2, ?_⟩
      intro hw hs hty herrs e2 he
      have hpe := errs_nil_of_ext a2.errsExt herrs
      simp [push_err] at hpe
    | .call c2 a2s =>
      dsimp only [get_name] at h
      obtain ⟨a2, c2h⟩ := ih.pHCA _ _ _ _ _ _ _ _ _ h
      refine ⟨AStep.trans (push_err_step _ st) a2, ?_⟩
      intro hw hs hty herrs e2 he
      have hpe := errs_nil_of_ext a2.errsExt herrs
      simp [push_err] at hpe
  | .member recv mname =>
    dsimp only at h
    split at h
    · cases h
    · rename_i r0 st1 h1
      obtain ⟨a1, c1h⟩ := ih.pHE _ _ _ _ _ _ _ h1
      match hgm : get_member_type (r0.bind IExpr.tyOf) mname st1 with
      | (mt, stB) =>
        rw [hgm] at h
        dsimp only at h
        have agm : AStep p st1 stB := by
          have hstep := get_member_type_step (p := p) (r0.bind IExpr.tyOf) mname st1
          rw [hgm] at hstep
          exact hstep
        split at h
        · rename_i r2 t
          cases h
          refine ⟨AStep.trans a1 agm, ?_⟩
          intro hw hs hty herrs e2 he
          cases he
          have h1e : st1.errs = [] := errs_nil_of_ext agm.errsExt herrs
          simp only [exprTypedB, Bool.and_eq_true]
          exact ⟨rfl, c1h hw hs hty h1e r2 rfl⟩
        · cases h
          exact ⟨AStep.trans a1 agm, fun _ _ _ _ e2 he => Option.noConfusion he⟩

theorem hs_block_succ (p : SProgram) (f : Nat) (vars : Scope) (tv : Frame)
    (ss : List SStmt) (st : St) :
    handle_statement p (f + 1) vars tv (.blockS ss) st =
      match handle_block p f vars tv ss st with
      | none => none
      | some (stmts, st1) => some ((some (.blockS stmts), vars), st1) := rfl

theorem hs_empty_succ (p : SProgram) (f : Nat) (vars : Scope) (tv : Frame) (st : St) :
    handle_statement p (f + 1) vars tv .emptyS st = some ((some .emptyS, vars), st) := rfl

theorem hs_let_none_succ (p : SProgram) (f : Nat) (vars : Scope) (tv : Frame)
    (n : String) (init : SExpr) (st : St) :
    handle_statement p (f + 1) vars tv (.letS n none init) st =
      match handle_expression p f vars tv init none st with
      | none => none
      | some (e2, st2) =>
        let ty := e2.bind IExpr.tyOf
        let c1 : St × Bool :=
          match e2, ty with
          | some e3, some t =>
            if e3.tyOf ≠ some t then (push_err .typeMismatch st2, true) else (st2, false)
          | _, _ => (st2, false)
        let vars2 := scope_insert n ty vars
        if ty.isNone ∨ e2.isNone ∨ c1.2 then some ((none, vars2), c1.1)
        else
          match e2, ty with
          | some e3, some t => some ((some (.letS n t e3), vars2), c1.1)
          | _, _ => some ((none, vars2), c1.1) := rfl

theorem hs_if_succ (p : SProgram) (f : Nat) (vars : Scope) (tv : Frame)
    (c : SExpr) (t e : SStmt) (st : St) :
    handle_statement p (f + 1) vars tv (.ifS c t e) st =
      (match get_int_type st with
      | (it, st0) =>
        match handle_expression p f vars tv c (some it) st0 with
        | none => none
        | some (ce, st1) =>
          match handle_statement p f vars tv t st1 with
          | none => none
          | some ((te, vars1), st2) =>
            match handle_statement p f vars1 tv e st2 with
            | none => none
            | some ((ee, vars2), st3) =>
              let c1 : St × Bool :=
                match ce with
                | some ce2 =>
                  if ce2.tyOf ≠ some it then (push_err .typeMismatch st3, true)
                  else (st3, false)
                | none => (st3, false)
              if ce.isNone ∨ te.isNone ∨ ee.isNone ∨ c1.2 then some ((none, vars2), c1.1)
              else
                match ce, te, ee with
                | some c2, some t2, some e3 => some ((some (.ifS c2 t2 e3), vars2), c1.1)
                | _, _, _ => some ((none, vars2), c1.1)) := rfl

theorem hs_while_succ (p : SProgram) (f : Nat) (vars : Scope) (tv : Frame)
    (c : SExpr) (b : SStmt) (st : St) :
    handle_statement p (f + 1) vars tv (.whileS c b) st =
      (match get_int_type st with
      | (it, st0) =>
        match handle_expression p f vars tv c (some it) st0 with
        | none => none
        | some (ce, st1) =>
          match handle_statement p f vars tv b st1 with
          | none => none
          | some ((be, vars1), st2) =>
            let c1 : St × Bool :=
              match ce with
              | some ce2 =>
                if ce2.tyOf ≠ some it then (push_err .typeMismatch st2, true)
                else (st2, false)
              | none => (st2, false)
            if ce.isNone ∨ be.isNone ∨ c1.2 then some ((none, vars1), c1.1)
            else
              match ce, be with
              | some c2, some b2 => some ((some (.whileS c2 b2), vars1), c1.1)
              | _, _ => some ((none, vars1), c1.1)) := rfl

theorem hs_return_none_succ (p : SProgram) (f : Nat) (vars : Scope) (tv : Frame) (st : St) :
    handle_statement p (f + 1) vars tv (.returnS none) st =
      some ((some (.returnS none), vars), st) := rfl

theorem hs_return_some_succ (p : SProgram) (f : Nat) (vars : Scope) (tv : Frame)
    (e0 : SExpr) (st : St) :
    handle_statement p (f + 1) vars tv (.returnS (some e0)) st =
      match handle_expression p f vars tv e0 none st with
      | none => none
      | some (e2, st1) => some ((some (.returnS e2), vars), st1) := rfl

theorem hs_expr_succ (p : SProgram) (f : Nat) (vars : Scope) (tv : Frame)
    (e0 : SExpr) (st : St) :
    handle_statement p (f + 1) vars tv (.exprS e0) st =
      match handle_expression p f vars tv e0 none st with
      | none => none
      | some (e2, st1) =>
        match e2 with
        | none => some ((none, vars), st1)
        | some e3 => some ((some (.exprS e3), vars), st1) := rfl

theorem step_HS (p : SProgram) (f : Nat) (ih : MegaP p f) :
    ∀ vars tv s st r vars2 st2,
      handle_statement p (f + 1) vars tv s st = some ((r, vars2), st2) →
      AStep p st st2 ∧
      (wfProgramB p = true → SInv st → TyInv st → st2.errs = [] →
        ∀ s3, r = some s3 → stmtTypedB s3 = true) := by
  intro vars tv s st r vars2 st2 h
  match s with
  | .blockS ss =>
    rw [hs_block_succ] at h
    split at h
    · cases h
    · rename_i stmts st1 h1
      cases h
      obtain ⟨a1, c1⟩ := ih.pHB _ _ _ _ _ _ h1
      refine ⟨a1, ?_⟩
      intro hw hs hty herrs s3 hs3
      cases hs3
      simp only [stmtTypedB]
      exact c1 hw hs hty herrs
  | .emptyS =>
    rw [hs_empty_succ] at h
    cases h
    refine ⟨AStep.rfl st, ?_⟩
    intro _ _ _ _ s3 hs3
    cases hs3
    simp [stmtTypedB]
  | .letS n dt init =>
    match dt with
    | none =>
      rw [hs_let_none_succ] at h
      split at h
      · cases h
      · rename_i e2 stB h2
        obtain ⟨a2, c2h⟩ := ih.pHE _ _ _ _ _ _ _ h2
        dsimp only at h
        match e2 with
        | none =>
          dsimp only [Option.bind] at h
          split at h
          · cases h
            exact ⟨a2, fun _ _ _ _ s3 hs3 => Option.noConfusion hs3⟩
          · rename_i hcond
            exact absurd (Or.inl rfl) hcond
        | some e3 =>
          dsimp only [Option.bind] at h
          match het : IExpr.tyOf e3 with
          | none =>
            rw [het] at h
            dsimp only at h
            split at h
            · cases h
              exact ⟨a2, fun _ _ _ _ s3 hs3 => Option.noConfusion hs3⟩
            · rename_i hcond
              exact absurd (Or.inl rfl) hcond
          | some t =>
            rw [het] at h
            dsimp only at h
            rw [het] at h
            rw [if_neg (show ¬(some t ≠ some t) from fun hh => hh rfl)] at h
            split at h
            · rename_i hcond
              rcases hcond with hc | hc | hc
              · cases hc
              · cases hc
              · cases hc
            · cases h
              refine ⟨a2, ?_⟩
              intro hw hs hty herrs s3 hs3
              cases hs3
              simp only [stmtTypedB]
              exact c2h hw hs hty herrs e3 rfl
    | some te =>
      rw [handle_statement_let_some_succ] at h
      split at h
      · cases h
      · rename_i t0 st1 h1
        obtain ⟨aHT, -, -⟩ := ih.pHT _ _ _ _ _ h1
        split at h
        · cases h
        · rename_i e2 stB h2
          obtain ⟨a2, c2h⟩ := ih.pHE _ _ _ _ _ _ _ h2
          have a12 := AStep.trans aHT a2
          dsimp only at h
          match t0 with
          | none =>
            dsimp only at h
            match e2 with
            | none =>
              dsimp only [Option.bind] at h
              split at h
              · cases h
                exact ⟨a12, fun _ _ _ _ s3 hs3 => Option.noConfusion hs3⟩
              · rename_i hcond
                exact absurd (Or.inl rfl) hcond
            | some e3 =>
              dsimp only [Option.bind] at h
              match het : IExpr.tyOf e3 with
              | none =>
                rw [het] at h
                dsimp only at h
                split at h
                · cases h
                  exact ⟨a12, fun _ _ _ _ s3 hs3 => Option.noConfusion hs3⟩
                · rename_i hcond
                  exact absurd (Or.inl rfl) hcond
              | some t =>
                rw [het] at h
                dsimp only at h
                rw [het] at h
                rw [if_neg (show ¬(some t ≠ some t) from fun hh => hh rfl)] at h
                split at h
                · rename_i hcond
                  rcases hcond with hc | hc | hc
                  · cases hc
                  · cases hc
                  · cases hc
                · cases h
                  refine ⟨a12, ?_⟩
                  intro hw hs hty herrs s3 hs3
                  cases hs3
                  simp only [stmtTypedB]
                  exact c2h hw (aHT.invPres hs) (aHT.tyPres hw hs hty) herrs e3 rfl
          | some t =>
            dsimp only at h
            match e2 with
            | none =>
              dsimp only at h
              split at h
              · cases h
                exact ⟨a12, fun _ _ _ _ s3 hs3 => Option.noConfusion hs3⟩
              · rename_i hcond
                exact absurd (Or.inr (Or.inl rfl)) hcond
            | some e3 =>
              dsimp only at h
              by_cases hne : IExpr.tyOf e3 ≠ some t
              · rw [if_pos hne] at h
                split at h
                · cases h
                  exact ⟨AStep.trans a12 (push_err_step _ stB),
                    fun _ _ _ _ s3 hs3 => Option.noConfusion hs3⟩
                · rename_i hcond
                  exact absurd (Or.inr (Or.inr rfl)) hcond
              · rw [if_neg hne] at h
                split at h
                · rename_i hcond
                  rcases hcond with hc | hc | hc
                  · cases hc
                  · cases hc
                  · cases hc
                · cases h
                  refine ⟨a12, ?_⟩
                  intro hw hs hty herrs s3 hs3
                  cases hs3
                  simp only [stmtTypedB]
                  exact c2h hw (aHT.invPres hs) (aHT.tyPres hw hs hty) herrs e3 rfl
  | .ifS c t e =>
    rw [hs_if_succ] at h
    match hgi : get_int_type st with
    | (it, st0) =>
      rw [hgi] at h
      dsimp only at h
      have a0 : AStep p st st0 := by
        have hstep := get_int_type_step (p := p) st
        rw [hgi] at hstep
        exact hstep
      split at h
      · cases h
      · rename_i ce st1 h1
        obtain ⟨a1, c1h⟩ := ih.pHE _ _ _ _ _ _ _ h1
        split at h
        · cases h
        · rename_i te2 vars1 stB h2
          obtain ⟨a2, c2h⟩ := ih.pHS _ _ _ _ _ _ _ h2
          split at h
          · cases h
          · rename_i ee varsB stC h3
            obtain ⟨a3, c3h⟩ := ih.pHS _ _ _ _ _ _ _ h3
            have aAll := AStep.trans a0 (AStep.trans a1 (AStep.trans a2 a3))
            match ce with
            | none =>
              split at h
              · cases h
                exact ⟨aAll, fun _ _ _ _ s3 hs3 => Option.noConfusion hs3⟩
              · rename_i hcond
                exact absurd (Or.inl rfl) hcond
            | some ce2 =>
              dsimp only at h
              by_cases hne : IExpr.tyOf ce2 ≠ some it
              · rw [if_pos hne] at h
                split at h
                · cases h
                  exact ⟨AStep.trans aAll (push_err_step _ stC),
                    fun _ _ _ _ s3 hs3 => Option.noConfusion hs3⟩
                · rename_i hcond
                  exact absurd (Or.inr (Or.inr (Or.inr rfl))) hcond
              · rw [if_neg hne] at h
                split at h
                · cases h
                  exact ⟨aAll, fun _ _ _ _ s3 hs3 => Option.noConfusion hs3⟩
                · split at h
                  · rename_i e3q heqc hncond
                    cases heqc
                    cases h
                    refine ⟨aAll, ?_⟩
                    intro hw hs hty herrs s3 hs3
                    cases hs3
                    have hCe : stC.errs = [] := herrs
                    have hBe : stB.errs = [] := errs_nil_of_ext a3.errsExt hCe
                    have h1e : st1.errs = [] := errs_nil_of_ext a2.errsExt hBe
                    simp only [stmtTypedB, Bool.and_eq_true]
                    refine ⟨⟨?_, ?_⟩, ?_⟩
                    · exact c1h hw (a0.invPres hs) (a0.tyPres hw hs hty) h1e _ rfl
                    · exact c2h hw ((AStep.trans a0 a1).invPres hs)
                        ((AStep.trans a0 a1).tyPres hw hs hty) hBe _ rfl
                    · exact c3h hw ((AStep.trans a0 (AStep.trans a1 a2)).invPres hs)
                        ((AStep.trans a0 (AStep.trans a1 a2)).tyPres hw hs hty) hCe _ rfl
                  · cases h
                    exact ⟨aAll, fun _ _ _ _ s3 hs3 => Option.noConfusion hs3⟩
  | .whileS c b =>
    rw [hs_while_succ] at h
    match hgi : get_int_type st with
    | (it, st0) =>
      rw [hgi] at h
      dsimp only at h
      have a0 : AStep p st st0 := by
        have hstep := get_int_type_step (p := p) st
        rw [hgi] at hstep
        exact hstep
      split at h
      · cases h
      · rename_i ce st1 h1
        obtain ⟨a1, c1h⟩ := ih.pHE _ _ _ _ _ _ _ h1
        split at h
        · cases h
        · rename_i be vars1 stB h2
          obtain ⟨a2, c2h⟩ := ih.pHS _ _ _ _ _ _ _ h2
          have aAll := AStep.trans a0 (AStep.trans a1 a2)
          match ce with
          | none =>
            split at h
            · cases h
              exact ⟨aAll, fun _ _ _ _ s3 hs3 => Option.noConfusion hs3⟩
            · rename_i hcond
              exact absurd (Or.inl rfl) hcond
          | some ce2 =>
            dsimp only at h
            by_cases hne : IExpr.tyOf ce2 ≠ some it
            · rw [if_pos hne] at h
              split at h
              · cases h
                exact ⟨AStep.trans aAll (push_err_step _ stB),
                  fun _ _ _ _ s3 hs3 => Option.noConfusion hs3⟩
              · rename_i hcond
                exact absurd (Or.inr (Or.inr rfl)) hcond
            · rw [if_neg hne] at h
              split at h
              · cases h
                exact ⟨aAll, fun _ _ _ _ s3 hs3 => Option.noConfusion hs3⟩
              · split at h
                · rename_i b2q heqc hncond
                  cases heqc
                  cases h
                  refine ⟨aAll, ?_⟩
                  intro hw hs hty herrs s3 hs3
                  cases hs3
                  have hBe : stB.errs = [] := herrs
                  have h1e : st1.errs = [] := errs_nil_of_ext a2.errsExt hBe
                  simp only [stmtTypedB, Bool.and_eq_true]
                  refine ⟨?_, ?_⟩
                  · exact c1h hw (a0.invPres hs) (a0.tyPres hw hs hty) h1e _ rfl
                  · exact c2h hw ((AStep.trans a0 a1).invPres hs)
                      ((AStep.trans a0 a1).tyPres hw hs hty) hBe _ rfl
                · cases h
                  exact ⟨aAll, fun _ _ _ _ s3 hs3 => Option.noConfusion hs3⟩
  | .returnS eo =>
    match eo with
    | none =>
      rw [hs_return_none_succ] at h
      cases h
      refine ⟨AStep.rfl st, ?_⟩
      intro _ _ _ _ s3 hs3
      cases hs3
      simp [stmtTypedB]
    | some e0 =>
      rw [hs_return_some_succ] at h
      split at h
      · cases h
      · rename_i e2 st1 h1
        cases h
        obtain ⟨a1, c1h⟩ := ih.pHE _ _ _ _ _ _ _ h1
        refine ⟨a1, ?_⟩
        intro hw hs hty herrs s3 hs3
        cases hs3
        match e2 with
        | none => simp [stmtTypedB]
        | some e3 =>
          simp only [stmtTypedB]
          exact c1h hw hs hty herrs e3 rfl
  | .exprS e0 =>
    rw [hs_expr_succ] at h
    split at h
    · cases h
    · rename_i e2 st1 h1
      obtain ⟨a1, c1h⟩ := ih.pHE _ _ _ _ _ _ _ h1
      match e2 with
      | none =>
        dsimp only at h
        cases h
        exact ⟨a1, fun _ _ _ _ s3 hs3 => Option.noConfusion hs3⟩
      | some e3 =>
        dsimp only at h
        cases h
        refine ⟨a1, ?_⟩
        intro hw hs hty herrs s3 hs3
        cases hs3
        simp only [stmtTypedB]
        exact c1h hw hs hty herrs e3 rfl

theorem step_HSS (p : SProgram) (f : Nat) (ih : MegaP p f) :
    ∀ vars tv ss st stmts vars2 st2,
      handle_statements p (f + 1) vars tv ss st = some ((stmts, vars2), st2) →
      AStep p st st2 ∧
      (wfProgramB p = true → SInv st → TyInv st → st2.errs = [] →
        stmtsTypedB stmts = true) := by
  intro vars tv ss st stmts vars2 st2 h
  match ss with
  | [] =>
    rw [show handle_statements p (f + 1) vars tv [] st = some (([], vars), st) from rfl] at h
    cases h
    exact ⟨AStep.rfl st, fun _ _ _ _ => rfl⟩
  | s :: rest =>
    rw [handle_statements_cons_succ] at h
    split at h
    · cases h
    · rename_i s2 vars1 st1 h1
      split at h
      · cases h
      · rename_i rest2 varsB stB h2
        obtain ⟨a1, c1⟩ := ih.pHS _ _ _ _ _ _ _ h1
        obtain ⟨a2, c2⟩ := ih.pHSS _ _ _ _ _ _ _ h2
        match s2 with
        | none =>
          dsimp only at h
          cases h
          refine ⟨AStep.trans a1 a2, ?_⟩
          intro hw hs hty herrs
          exact c2 hw (a1.invPres hs) (a1.tyPres hw hs hty) herrs
        | some s3 =>
          dsimp only at h
          cases h
          refine ⟨AStep.trans a1 a2, ?_⟩
          intro hw hs hty herrs
          have h1e : st1.errs = [] := errs_nil_of_ext a2.errsExt herrs
          simp only [stmtsTypedB, Bool.and_eq_true]
          exact ⟨c1 hw hs hty h1e s3 rfl, c2 hw (a1.invPres hs) (a1.tyPres hw hs hty) herrs⟩

theorem step_HB (p : SProgram) (f : Nat) (ih : MegaP p f) :
    ∀ vars tv ss st stmts st2, handle_block p (f + 1) vars tv ss st = some (stmts, st2) →
      AStep p st st2 ∧
      (wfProgramB p = true → SInv st → TyInv st → st2.errs = [] →
        stmtsTypedB stmts = true) := by
  intro vars tv ss st stmts st2 h
  rw [handle_block_succ] at h
  split at h
  · cases h
  · rename_i stmts1 varsx st1 h1
    cases h
    obtain ⟨a1, c1⟩ := ih.pHSS _ _ _ _ _ _ _ h1
    exact ⟨a1, c1⟩

theorem megaP_succ (p : SProgram) (f : Nat) (ih : MegaP p f) : MegaP p (f + 1) :=
  ⟨step_IS p f ih, step_ISM p f ih, step_IF p f ih, step_IFA p f ih, step_GT p f ih,
   step_HT p f ih, step_HTL p f ih, step_UM p f ih, step_UML p f ih, step_UR p f ih,
   step_GFL p f ih, step_GF p f ih, step_HE p f ih, step_HCA p f ih, step_HS p f ih,
   step_HSS p f ih, step_HB p f ih⟩

theorem mega (p : SProgram) : ∀ fuel, MegaP p fuel := by
  intro fuel
  induction fuel with
  | zero => exact megaP_zero p
  | succ f ihf => exact megaP_succ p f ihf

theorem SInv_St0 : SInv St0 := by
  refine ⟨?_, ?_, ?_, ?_, ?_, ?_, ?_, ?_⟩
  · intro i hi
    cases hi
  · intro i hi
    cases hi
  · intro i hi
    cases hi
  · intro i hi
    cases hi
  · exact List.nodup_nil
  · exact List.nodup_nil
  · intro i hi
    cases hi
  · intro k fid hk
    cases hk

theorem TyInv_St0 : TyInv St0 := fun _ => ⟨rfl, rfl⟩

theorem pass1_run_facts (p : SProgram) (fuel : Nat) (stf : St)
    (h : pass1_run p fuel = some stf) :
    SInv stf ∧ (wfProgramB p = true → TyInv stf) := by
  unfold pass1_run at h
  match hgv : get_void_type St0 with
  | (v, st) =>
    rw [hgv] at h
    dsimp only at h
    have a0 : AStep p St0 st := by
      have hstep := get_void_type_step (p := p) St0
      rw [hgv] at hstep
      exact hstep
    split at h
    · cases h
    · rename_i r0 st1 hgf
      obtain ⟨a1, -⟩ := (mega p fuel).pGF _ _ _ _ _ _ hgf
      have hsi := (AStep.trans a0 a1).invPres SInv_St0
      have hth := fun hw => (AStep.trans a0 a1).tyPres hw SInv_St0 TyInv_St0
      match r0 with
      | none =>
        dsimp only at h
        cases h
        exact ⟨hsi, hth⟩
      | some fid =>
        dsimp only at h
        cases h
        constructor
        · exact ⟨hsi.typesPos, hsi.typesLe, hsi.fnsPos, hsi.fnsLe, hsi.typesNodup,
            hsi.fnsNodup, hsi.disj, hsi.memoFn⟩
        · intro hw he
          exact hth hw he

theorem hrunOrder : pass1_run progOrder 15 = some stOrder := by
  simp [pass1_run, get_void_type, get_int_type, get_function, get_function_loop, unify_run,
    unify_match, unify_match_list, all_some, instantiate_function, instantiate_function_args,
    instantiate_structure, instantiate_structure_members, get_type, handle_type, handle_type_list,
    handle_expression, handle_call_args, handle_statement, handle_statements, handle_block,
    get_name, get_member_type, find_structure, alookup, ainsert, frame_insert, scope_insert,
    scope_lookup, build_tv, push_err, St0, is_variable, set_variable, progOrder, IExpr.tyOf,
    stOrder]

theorem nodupB_of_nodup : ∀ {l : List Nat}, l.Nodup → nodupB l = true := by
  intro l h
  induction l with
  | nil => rfl
  | cons a r ih =>
    rw [List.nodup_cons] at h
    have hc : r.contains a = false := by
      rw [← Bool.not_eq_true]
      intro hcc
      exact h.1 (List.mem_of_elem_eq_true hcc)
    simp only [nodupB, hc, ih h.2, Bool.not_false, Bool.and_self]

theorem positiveB_of_pos {l : List Nat} (h : ∀ i ∈ l, 1 ≤ i) : positiveB l = true := by
  unfold positiveB
  rw [List.all_eq_true]
  intro i hi
  exact decide_eq_true (h i hi)

theorem disjointB_of_disj {l1 l2 : List Nat} (h : ∀ i ∈ l1, i ∉ l2) :
    disjointB l1 l2 = true := by
  unfold disjointB
  rw [List.all_eq_true]
  intro i hi
  have hc : l2.contains i = false := by
    rw [← Bool.not_eq_true]
    intro hcc
    exact h i hi (List.mem_of_elem_eq_true hcc)
  simp only [hc, Bool.not_false]

theorem cg_types_no_fn (tt : List (Nat × TypeNode)) : ∀ l : List Nat,
    (l.map (fun id => match alookup tt id with
      | some (.structT _ _) => CItem.structItem id
      | _ => CItem.typedefItem id)).filterMap (fun i =>
        match i with
        | CItem.fnDecl id => some id
        | _ => none) = [] := by
  intro l
  induction l with
  | nil => rfl
  | cons a r ih =>
    rw [List.map_cons, List.filterMap_cons]
    match h2 : alookup tt a with
    | some (.structT s2 ts) => simp only [h2]; exact ih
    | some .voidT => simp only [h2]; exact ih
    | some .intT => simp only [h2]; exact ih
    | none => simp only [h2]; exact ih

theorem cg_types_ids (tt : List (Nat × TypeNode)) : ∀ l : List Nat,
    (l.map (fun id => match alookup tt id with
      | some (.structT _ _) => CItem.structItem id
      | _ => CItem.typedefItem id)).filterMap (fun i =>
        match i with
        | CItem.typedefItem id => some id
        | CItem.structItem id => some id
        | _ => none) = l := by
  intro l
  induction l with
  | nil => rfl
  | cons a r ih =>
    rw [List.map_cons, List.filterMap_cons]
    match h2 : alookup tt a with
    | some (.structT s2 ts) => simp only [h2]; rw [ih]
    | some .voidT => simp only [h2]; rw [ih]
    | some .intT => simp only [h2]; rw [ih]
    | none => simp only [h2]; rw [ih]

theorem cg_fnDecl_ids : ∀ l : List Nat,
    (l.map CItem.fnDecl).filterMap (fun i =>
      match i with
      | CItem.fnDecl id => some id
      | _ => none) = l := by
  intro l
  induction l with
  | nil => rfl
  | cons a r ih => simp [List.map_cons, List.filterMap_cons, ih]

theorem cg_fnDecl_no_types : ∀ l : List Nat,
    (l.map CItem.fnDecl).filterMap (fun i =>
      match i with
      | CItem.typedefItem id => some id
      | CItem.structItem id => some id
      | _ => none) = [] := by
  intro l
  induction l with
  | nil => rfl
  | cons a r ih => simp [List.map_cons, List.filterMap_cons, ih]

theorem cg_fnDef_no_fn : ∀ l : List Nat,
    (l.map CItem.fnDef).filterMap (fun i =>
      match i with
      | CItem.fnDecl id => some id
      | _ => none) = [] := by
  intro l
  induction l with
  | nil => rfl
  | cons a r ih => simp [List.map_cons, List.filterMap_cons, ih]

theorem cg_fnDef_no_types : ∀ l : List Nat,
    (l.map CItem.fnDef).filterMap (fun i =>
      match i with
      | CItem.typedefItem id => some id
      | CItem.structItem id => some id
      | _ => none) = [] := by
  intro l
  induction l with
  | nil => rfl
  | cons a r ih => simp [List.map_cons, List.filterMap_cons, ih]

theorem fn_decl_ids_codegen (st : St) : fn_decl_ids (codegen_items st) = st.fnInsts := by
  unfold codegen_items fn_decl_ids
  rw [List.filterMap_append, List.filterMap_append, List.filterMap_append]
  rw [cg_types_no_fn, cg_fnDecl_ids, cg_fnDef_no_fn]
  simp

theorem type_item_ids_codegen (st : St) : type_item_ids (codegen_items st) = st.types := by
  unfold codegen_items type_item_ids
  rw [List.filterMap_append, List.filterMap_append, List.filterMap_append]
  rw [cg_types_ids, cg_fnDecl_no_types, cg_fnDef_no_types]
  simp

/-- Claim C1: the instantiation memos are idempotent.  A completed demand for
a declared template (structure or function) with an arity-correct tuple
returns some instantiation id, and a second demand for the same template and
tuple against the resulting state -- at any fuel, even zero -- returns the
identical id and leaves the state unchanged, so no second instantiation is
ever created for that key. -/
theorem claim_C1 (p : SProgram) (f f2 : Nat) :
    (∀ sIdx targs st r st2 sd,
        instantiate_structure p f sIdx targs st = some (r, st2) →
        p.structures.get? sIdx = some sd →
        targs.length = sd.template_arguments.length →
        ∃ tid, r = some tid ∧
          instantiate_structure p f2 sIdx targs st2 = some (some tid, st2)) ∧
    (∀ fIdx targs st r st2 fn,
        instantiate_function p f fIdx targs st = some (r, st2) →
        p.functions.get? fIdx = some fn →
        targs.length = fn.template_arguments.length →
        ∃ fid, r = some fid ∧
          instantiate_function p f2 fIdx targs st2 = some (some fid, st2)) := by
  constructor
  · intro sIdx targs st r st2 sd hrun hget harity
    obtain ⟨-, hmemo, hsome, -⟩ := (mega p f).pIS _ _ _ _ _ hrun
    obtain ⟨tid, htid⟩ := Option.isSome_iff_exists.mp (hsome sd hget harity)
    subst htid
    exact ⟨tid, rfl,
      instantiate_structure_memo_hit p f2 sIdx targs st2 tid sd hget harity (hmemo tid rfl)⟩
  · intro fIdx targs st r st2 fn hrun hget harity
    obtain ⟨-, hmemo, hsome⟩ := (mega p f).pIF _ _ _ _ _ hrun
    obtain ⟨fid, hfid⟩ := Option.isSome_iff_exists.mp (hsome fn hget harity)
    subst hfid
    exact ⟨fid, rfl,
      instantiate_function_memo_hit p f2 fIdx targs st2 fid fn hget harity (hmemo fid rfl).1⟩

/-- Claim C1 witness: instantiating struct S of pC1 once yields id 1, and a
second demand at fuel zero returns the same id with the state unchanged. -/
theorem claim_C1_witness :
    ∃ tid, (some 1 : Option Nat) = some tid ∧
      instantiate_structure pC1 0 0 [] stC1 = some (some tid, stC1) :=
  (claim_C1 pC1 2 0).1 0 [] St0 (some 1) stC1
    { name := "S", template_arguments := [], members := [] } (by rfl) rfl rfl

set_option maxHeartbeats 2000000 in
/-- Claim C3: a Call whose callee is a MemberAccess is analyzed exactly as
the same Call with the member name as callee and the receiver prepended to
the argument list (the fuel offset accounts for the extra evaluation step the
rewritten form spends on the receiver in the argument loop); and a Call whose
callee is neither a MemberAccess nor a Name records the expected-a-name
diagnostic and returns the null marker. -/
theorem claim_C3 (p : SProgram) :
    (∀ f vars tv recv mname cargs exp st,
      handle_expression p (f + 1) vars tv (.call (.member recv mname) cargs) exp st =
        handle_expression p (f + 2) vars tv (.call (.name mname) (recv :: cargs)) exp st) ∧
    (∀ f vars tv callee cargs exp st r st2,
      (∀ s, callee ≠ SExpr.name s) → (∀ a m, callee ≠ SExpr.member a m) →
      handle_expression p (f + 1) vars tv (.call callee cargs) exp st = some (r, st2) →
      r = none ∧ Err.expectedName ∈ st2.errs) := by
  constructor
  · intro f vars tv recv mname cargs exp st
    rfl
  · intro f vars tv callee cargs exp st r st2 hn hm h
    match callee with
    | .name s => exact absurd rfl (hn s)
    | .member a m => exact absurd rfl (hm a m)
    | .intLit v =>
      rw [handle_expression.eq_def] at h
      dsimp only [get_name] at h
      obtain ⟨a2, -⟩ := (mega p f).pHCA _ _ _ _ _ _ _ _ _ h
      refine ⟨handle_call_args_none p f _ _ _ _ _ _ _ _ h, ?_⟩
      obtain ⟨d, hd⟩ := a2.errsExt
      rw [hd]
      exact List.mem_append_right d (List.mem_cons_self _ _)
    | .binary op l r2 =>
      rw [handle_expression.eq_def] at h
      dsimp only [get_name] at h
      obtain ⟨a2, -⟩ := (mega p f).pHCA _ _ _ _ _ _ _ _ _ h
      refine ⟨handle_call_args_none p f _ _ _ _ _ _ _ _ h, ?_⟩
      obtain ⟨d, hd⟩ := a2.errsExt
      rw [hd]
      exact List.mem_append_right d (List.mem_cons_self _ _)
    | .assign l r2 =>
      rw [handle_expression.eq_def] at h
      dsimp only [get_name] at h
      obtain ⟨a2, -⟩ := (mega p f).pHCA _ _ _ _ _ _ _ _ _ h
      refine ⟨handle_call_args_none p f _ _ _ _ _ _ _ _ h, ?_⟩
      obtain ⟨d, hd⟩ := a2.errsExt
      rw [hd]
      exact List.mem_append_right d (List.mem_cons_self _ _)
    | .call c2 a2s =>
      rw [handle_expression.eq_def] at h
      dsimp only [get_name] at h
      obtain ⟨a2, -⟩ := (mega p f).pHCA _ _ _ _ _ _ _ _ _ h
      refine ⟨handle_call_args_none p f _ _ _ _ _ _ _ _ h, ?_⟩
      obtain ⟨d, hd⟩ := a2.errsExt
      rw [hd]
      exact List.mem_append_right d (List.mem_cons_self _ _)

/-- Claim C3 witness: the UFCS equation applied at a concrete member call,
and the bad-callee part applied at the call 0() whose callee is an integer
literal: the result is the null marker and the expected-a-name diagnostic is
recorded. -/
theorem claim_C3_witness :
    (handle_expression progC7 3 [[]] [] (.call (.member (.name "a") "f") []) none St0 =
      handle_expression progC7 4 [[]] [] (.call (.name "f") [.name "a"]) none St0) ∧
    ((none : Option IExpr) = none ∧
      Err.expectedName ∈ (push_err .expectedName St0).errs) :=
  ⟨(claim_C3 progC7).1 2 [[]] [] (.name "a") "f" [] none St0,
   (claim_C3 progC7).2 2 [[]] [] (.intLit 0) [] none St0 none (push_err .expectedName St0)
     (fun s hh => nomatch hh) (fun a m hh => nomatch hh) (by rfl)⟩

/-- Claim C5 (amended): the function-instantiation list of an accepted run is
in general NEITHER in first-demand order nor in ascending id order (see the
counterexample: an instantiation is appended only after its body completes),
but it is duplicate free with positive ids, and the C emitter emits exactly
one forward declaration per instantiation, in list order. -/
theorem claim_C5 (p : SProgram) (fuel : Nat) (st : St) (h : pass1_run p fuel = some st) :
    nodupB st.fnInsts = true ∧ positiveB st.fnInsts = true ∧
    fn_decl_ids (codegen_items st) = st.fnInsts := by
  obtain ⟨hsi, -⟩ := pass1_run_facts p fuel st h
  exact ⟨nodupB_of_nodup hsi.fnsNodup, positiveB_of_pos hsi.fnsPos, fn_decl_ids_codegen st⟩

/-- Claim C5 witness: the amended claim applied to the accepted progOrder
run, whose instantiation list is [3, 2]. -/
theorem claim_C5_witness :
    nodupB stOrder.fnInsts = true ∧ positiveB stOrder.fnInsts = true ∧
    fn_decl_ids (codegen_items stOrder) = stOrder.fnInsts :=
  claim_C5 progOrder 15 stOrder hrunOrder

/-- Claim C6 (amended): the program type list of an accepted run is in
general NOT in ascending id order (see the counterexample: a structure
instantiation is appended only after its member types are resolved, which can
create builtin types with larger ids first), but it is duplicate free with
positive ids, and the C emitter emits exactly one typedef or struct
definition per type, in list order. -/
theorem claim_C6 (p : SProgram) (fuel : Nat) (st : St) (h : pass1_run p fuel = some st) :
    nodupB st.types = true ∧ positiveB st.types = true ∧
    type_item_ids (codegen_items st) = st.types := by
  obtain ⟨hsi, -⟩ := pass1_run_facts p fuel st h
  exact ⟨nodupB_of_nodup hsi.typesNodup, positiveB_of_pos hsi.typesPos, type_item_ids_codegen st⟩

/-- Claim C6 witness: the amended claim applied to the accepted progOrder
run, whose type list is [1, 5, 4]. -/
theorem claim_C6_witness :
    nodupB stOrder.types = true ∧ positiveB stOrder.types = true ∧
    type_item_ids (codegen_items stOrder) = stOrder.types :=
  claim_C6 progOrder 15 stOrder hrunOrder

/-- Claim C7 (amended): null propagation is silent for binary operations and
member accesses -- a failed operand or receiver makes the enclosing node
return the null marker with the state exactly as the subexpressions left it,
no further diagnostic -- but it is NOT silent for calls: a call with a failed
argument still runs overload resolution and records a no-matching-function
diagnostic (see the counterexample). -/
theorem claim_C7 (p : SProgram) (f : Nat) :
    (∀ vars tv op l r exp st st1 stB re,
      handle_expression p f vars tv l none st = some (none, st1) →
      handle_expression p f vars tv r none st1 = some (re, stB) →
      handle_expression p (f + 1) vars tv (.binary op l r) exp st = some (none, stB)) ∧
    (∀ vars tv recv mname exp st st1,
      handle_expression p f vars tv recv none st = some (none, st1) →
      handle_expression p (f + 1) vars tv (.member recv mname) exp st = some (none, st1)) := by
  constructor
  · intro vars tv op l r exp st st1 stB re hl hr
    rw [handle_expression.eq_def]
    dsimp only
    rw [hl]
    dsimp only
    rw [hr]
  · intro vars tv recv mname exp st st1 hrecv
    rw [handle_expression.eq_def]
    dsimp only
    rw [hrecv]
    rfl

/-- Claim C7 witness: the silent-propagation part applied to y + 0 where y is
undefined: the left operand fails with one diagnostic and the binary node
returns null with no additional diagnostic. -/
theorem claim_C7_witness :
    handle_expression progC7 2 [[]] [] (.binary .add (.name "y") (.intLit 0)) none St0 =
      some (none, stW2) :=
  (claim_C7 progC7 1).1 [[]] [] .add (.name "y") (.intLit 0) none St0 stW1 stW2
    (some (.intLit 0 (some 1))) (by rfl) (by rfl)

/-- Claim C8: in an accepted run of a well-formed program (every function
return type has type-grammar shape, which the parser guarantees), every
expression node reachable in the semantic IR -- the bodies of all function
instantiations, including every argument stored inside a Call node -- carries
a non-null resolved type. -/
theorem claim_C8 (p : SProgram) (fuel : Nat) (st : St)
    (hw : wfProgramB p = true) (h : pass1_run p fuel = some st) (he : st.errs = []) :
    blocksTypedB st = true := by
  obtain ⟨-, hty⟩ := pass1_run_facts p fuel st h
  exact (hty hw he).2

/-- Claim C8 witness: the accepted progOrder run is fully typed. -/
theorem claim_C8_witness : blocksTypedB stOrder = true :=
  claim_C8 progOrder 15 stOrder rfl hrunOrder rfl

/-- Claim C10: ids are drawn from one shared counter starting above zero, so
in any completed run every type id and every function-instantiation id is
positive, the two id lists are duplicate free, and no id is shared between a
type and a function instantiation -- hence the emitted C names tN and fN
never collide on N. -/
theorem claim_C10 (p : SProgram) (fuel : Nat) (st : St) (h : pass1_run p fuel = some st) :
    positiveB st.types = true ∧ positiveB st.fnInsts = true ∧
    nodupB st.types = true ∧ nodupB st.fnInsts = true ∧
    disjointB st.types st.fnInsts = true := by
  obtain ⟨hsi, -⟩ := pass1_run_facts p fuel st h
  exact ⟨positiveB_of_pos hsi.typesPos, positiveB_of_pos hsi.fnsPos,
    nodupB_of_nodup hsi.typesNodup, nodupB_of_nodup hsi.fnsNodup,
    disjointB_of_disj hsi.disj⟩

/-- Claim C10 witness: the accepted progOrder run has positive, duplicate
free and disjoint id lists (types [1, 5, 4], functions [3, 2]). -/
theorem claim_C10_witness :
    positiveB stOrder.types = true ∧ positiveB stOrder.fnInsts = true ∧
    nodupB stOrder.types = true ∧ nodupB stOrder.fnInsts = true ∧
    disjointB stOrder.types stOrder.fnInsts = true :=
  claim_C10 progOrder 15 stOrder hrunOrder

end Joy
